import Mathlib

/-!
Verification development for the email selection and cleaning pipeline
(clean_emails.py, select_350_emails.py, prepare_data.py).

Python strings are modelled as Lean strings / lists of characters.  The
character classes of the regular expressions (\w, \d, \s) and the string
methods lower/strip are modelled over their ASCII meaning; the inputs of
the pipeline are e-mail bodies and the source patterns are ASCII.
-/

namespace EmailSel

/-- ASCII model of the whitespace class used by Python's str.strip and
the regex class \s. -/
def isPySpace (c : Char) : Bool :=
  c = ' ' || c = '\t' || c = '\n' || c = '\x0d' || c = '\x0b' || c = '\x0c'

/-- ASCII decimal digit, modelling the regex class \d. -/
def isPyDigit (c : Char) : Bool :=
  '0' ≤ c && c ≤ '9'

def isPyAlpha (c : Char) : Bool :=
  ('a' ≤ c && c ≤ 'z') || ('A' ≤ c && c ≤ 'Z')

def isPyAlnum (c : Char) : Bool :=
  isPyAlpha c || isPyDigit c

/-- ASCII model of the regex class \w. -/
def isPyWord (c : Char) : Bool :=
  isPyAlnum c || c = '_'

/-- ASCII model of str.lower on one character. -/
def pyLowerChar (c : Char) : Char :=
  if 'A' ≤ c && c ≤ 'Z' then Char.ofNat (c.toNat + 32) else c

def pyLower (cs : List Char) : List Char :=
  cs.map pyLowerChar

def pyLstrip (cs : List Char) : List Char :=
  cs.dropWhile isPySpace

def pyRstrip (cs : List Char) : List Char :=
  (cs.reverse.dropWhile isPySpace).reverse

/-- Python str.strip. -/
def pyStrip (cs : List Char) : List Char :=
  pyRstrip (pyLstrip cs)

/-- Python str.startswith for list-of-character strings. -/
def startsWithL (pat cs : List Char) : Bool :=
  pat.isPrefixOf cs

/-- One scanning step bound: Python str.replace (replace every
non-overlapping occurrence, scanning left to right, without rescanning
replaced text).  The extra fuel argument makes the recursion structural;
callers pass the length of the text plus one, which is always enough
because every step consumes at least one character. -/
def pyReplaceF (fuel : Nat) (pat rep cs : List Char) : List Char :=
  match fuel, cs with
  | 0, cs => cs
  | _ + 1, [] => []
  | f + 1, c :: rest =>
    if startsWithL pat (c :: rest) then
      rep ++ pyReplaceF f pat rep ((c :: rest).drop pat.length)
    else
      c :: pyReplaceF f pat rep rest

def pyReplace (pat rep cs : List Char) : List Char :=
  pyReplaceF (cs.length + 1) pat rep cs

/-- String-level wrapper for Python str.replace. -/
def pyReplaceS (pat rep s : String) : String :=
  String.mk (pyReplace pat.data rep.data s.data)

/-- Python str.split("\n"). -/
def splitNLAux : List Char → List Char → List (List Char)
  | [], acc => [acc]
  | '\n' :: rest, acc => acc :: splitNLAux rest []
  | c :: rest, acc => splitNLAux rest (acc ++ [c])

def splitNL (cs : List Char) : List (List Char) :=
  splitNLAux cs []

/-- Python "sep".join. -/
def joinSep (sep : List Char) : List (List Char) → List Char
  | [] => []
  | [p] => p
  | p :: rest => p ++ sep ++ joinSep sep rest

end EmailSel

namespace EmailSel

/-!
A small backtracking regular-expression engine.  A pattern is a syntax
tree; matching returns the list of possible end positions together with
the capture map, ordered by backtracking priority exactly as Python's
re module orders its attempts (alternation tries the left branch first,
a greedy repetition tries longer matches first, a lazy one shorter
first).  The head of the list is the match Python reports.
-/

inductive RE where
  | eps : RE
  | one (p : Char → Bool) : RE
  | seq (a b : RE) : RE
  | alt (a b : RE) : RE
  | star (greedy : Bool) (a : RE) : RE
  | grp (i : Nat) (a : RE) : RE
  | ahead (a : RE) : RE
  | bolM : RE
  | eos : RE

/-- Capture map: group index with start and end position; the most
recent capture of a group is listed first, as Python reports the last
capture of a repeated group. -/
def Caps := List (Nat × Nat × Nat)

def setCap (i s e : Nat) (caps : Caps) : Caps :=
  (i, s, e) :: caps

def getCap (i : Nat) (caps : Caps) : Option (Nat × Nat) :=
  match caps with
  | [] => none
  | (j, s, e) :: rest => if j = i then some (s, e) else getCap i rest

/-- One layer of the matcher: structural recursion over the pattern,
with re-entry into a repetition delegated to the function argument so
that the whole matcher terminates (each re-entry strictly advances the
position, so a fuel of text length plus two levels is never exhausted). -/
def mAux (mF : RE → Nat → Caps → List (Nat × Caps)) (s : List Char) :
    RE → Nat → Caps → List (Nat × Caps)
  | .eps, pos, caps => [(pos, caps)]
  | .one p, pos, caps =>
    match s.get? pos with
    | some c => if p c then [(pos + 1, caps)] else []
    | none => []
  | .seq a b, pos, caps =>
    (mAux mF s a pos caps).flatMap (fun pc => mAux mF s b pc.1 pc.2)
  | .alt a b, pos, caps => mAux mF s a pos caps ++ mAux mF s b pos caps
  | .star g a, pos, caps =>
    let exts := (mAux mF s a pos caps).flatMap
      (fun pc => if pos < pc.1 then mF (.star g a) pc.1 pc.2 else [])
    if g then exts ++ [(pos, caps)] else (pos, caps) :: exts
  | .grp i a, pos, caps =>
    (mAux mF s a pos caps).map (fun pc => (pc.1, setCap i pos pc.1 pc.2))
  | .ahead a, pos, caps =>
    if (mAux mF s a pos caps).isEmpty then [] else [(pos, caps)]
  | .bolM, pos, caps =>
    if pos = 0 then [(pos, caps)]
    else if s.get? (pos - 1) = some '\n' then [(pos, caps)] else []
  | .eos, pos, caps => if pos = s.length then [(pos, caps)] else []

def mat : Nat → List Char → RE → Nat → Caps → List (Nat × Caps)
  | 0, _, _, _, _ => []
  | f + 1, s, re, pos, caps => mAux (mat f s) s re pos caps

/-- All ways a pattern can match starting at a position, in Python's
backtracking priority order. -/
def matchesAt (re : RE) (s : List Char) (pos : Nat) : List (Nat × Caps) :=
  mat (s.length + 2) s re pos []

/-- The match Python's engine reports at a position, if any. -/
def firstMatchAt (re : RE) (s : List Char) (pos : Nat) : Option (Nat × Caps) :=
  (matchesAt re s pos).head?

end EmailSel

namespace EmailSel

/-! Pattern-building helpers mirroring the regex notations of the source. -/

def chrE (c : Char) : RE := .one (fun d => d = c)

def chrCI (c : Char) : RE := .one (fun d => pyLowerChar d = pyLowerChar c)

def seqs : List RE → RE
  | [] => .eps
  | [r] => r
  | r :: rest => .seq r (seqs rest)

/-- A literal string pattern. -/
def lit (s : String) : RE := seqs (s.data.map chrE)

/-- A literal string pattern under re.IGNORECASE. -/
def litCI (s : String) : RE := seqs (s.data.map chrCI)

/-- Greedy Kleene star. -/
def many (a : RE) : RE := .star true a

/-- Lazy Kleene star. -/
def manyL (a : RE) : RE := .star false a

/-- Greedy plus. -/
def many1 (a : RE) : RE := .seq a (many a)

/-- Lazy plus. -/
def many1L (a : RE) : RE := .seq a (manyL a)

/-- Greedy question mark. -/
def opt (a : RE) : RE := .alt a .eps

/-- Exactly n copies. -/
def times : Nat → RE → RE
  | 0, _ => .eps
  | n + 1, a => .seq a (times n a)

/-- At most n copies, greedy. -/
def upTo : Nat → RE → RE
  | 0, _ => .eps
  | n + 1, a => .alt (.seq a (upTo n a)) .eps

/-- The regex repetition a{m,}: m copies then a greedy star. -/
def atLeast (m : Nat) (a : RE) : RE := .seq (times m a) (many a)

/-- The regex repetition a{m,n}. -/
def betw (m n : Nat) (a : RE) : RE := .seq (times m a) (upTo (n - m) a)

/-- The dot without re.DOTALL. -/
def dotN : RE := .one (fun c => c ≠ '\n')

/-- The dot under re.DOTALL. -/
def dotA : RE := .one (fun _ => true)

def wsp : RE := .one isPySpace

def digit : RE := .one isPyDigit

end EmailSel

namespace EmailSel

/-! re.sub, re.search and re.finditer over the engine. -/

/-- A piece of a replacement template: a literal string or a group
backreference such as \1. -/
inductive ReplPart where
  | str (s : String) : ReplPart
  | ref (i : Nat) : ReplPart

def Repl := List ReplPart

/-- Instantiate a replacement template with the captures of a match. -/
def applyRepl (s : List Char) (caps : Caps) : Repl → List Char
  | [] => []
  | .str t :: rest => t.data ++ applyRepl s caps rest
  | .ref i :: rest =>
    (match getCap i caps with
     | some (a, b) => (s.take b).drop a
     | none => []) ++ applyRepl s caps rest

/-- The scanning loop of re.sub: at each position take the engine's
first match; on a match emit the instantiated replacement and continue
after it (adjacent empty matches advance by one character, as in
Python 3.7+).  The fuel is the remaining scan length plus one. -/
def pySubF (re : RE) (rep : Repl) (s : List Char) : Nat → Nat → List Char
  | 0, pos => s.drop pos
  | f + 1, pos =>
    if pos > s.length then [] else
    match firstMatchAt re s pos with
    | some (e, caps) =>
      if pos < e then
        applyRepl s caps rep ++ pySubF re rep s f e
      else
        applyRepl s caps rep ++
          (match s.get? pos with
           | some c => c :: pySubF re rep s f (pos + 1)
           | none => [])
    | none =>
      match s.get? pos with
      | some c => c :: pySubF re rep s f (pos + 1)
      | none => []

/-- re.sub(pattern, repl, text). -/
def pySub (re : RE) (rep : Repl) (s : List Char) : List Char :=
  pySubF re rep s (s.length + 1) 0

/-- re.sub with a plain string replacement. -/
def pySubS (re : RE) (rep : String) (s : List Char) : List Char :=
  pySub re [.str rep] s

/-- re.sub deleting each match. -/
def pyDel (re : RE) (s : List Char) : List Char :=
  pySub re [] s

/-- The scanning loop of re.finditer, returning the list of
non-overlapping match spans in order. -/
def pyFindSpansF (re : RE) (s : List Char) : Nat → Nat → List (Nat × Nat)
  | 0, _ => []
  | f + 1, pos =>
    if pos > s.length then [] else
    match firstMatchAt re s pos with
    | some (e, _) =>
      if pos < e then (pos, e) :: pyFindSpansF re s f e
      else (pos, e) :: pyFindSpansF re s f (pos + 1)
    | none => pyFindSpansF re s f (pos + 1)

def pyFindSpans (re : RE) (s : List Char) : List (Nat × Nat) :=
  pyFindSpansF re s (s.length + 1) 0

/-- The match-removal loop shared by clean_boilerplate: all the spans
after the first are deleted, iterating over reversed(matches[1:]) and
cutting text[:start] ++ text[end:] each time. -/
def dropSpansRev (spans : List (Nat × Nat)) (s : List Char) : List Char :=
  spans.reverse.foldl (fun t sp => t.take sp.1 ++ t.drop sp.2) s

/-- Keep only the first occurrence of a pattern (clean_boilerplate's
confidentiality and environment-notice rules): when there is more than
one match, every later span is removed back to front. -/
def keepFirstOnly (re : RE) (s : List Char) : List Char :=
  let spans := pyFindSpans re s
  if spans.length > 1 then dropSpansRev (spans.drop 1) s else s

/-- The signature rule of clean_signatures: every occurrence after the
first is replaced by a fixed short placeholder, back to front. -/
def replaceAfterFirst (re : RE) (rep : List Char) (s : List Char) : List Char :=
  let spans := pyFindSpans re s
  if spans.length > 1 then
    (spans.drop 1).reverse.foldl
      (fun t sp => t.take sp.1 ++ rep ++ t.drop sp.2) s
  else s

end EmailSel

namespace EmailSel

/-! Character classes and shared sub-patterns of clean_emails.py. -/

/-- Alternation of a list of branches, tried left to right. -/
def alts : List RE → RE
  | [] => .eps
  | [r] => r
  | r :: rest => .alt r (alts rest)

def cNotSpParBr : RE := .one (fun c => !isPySpace c && c ≠ ')' && c ≠ ']')

def cNotSpParBrace : RE := .one (fun c => c ≠ ')' && c ≠ Char.ofNat 125 && !isPySpace c)

def cAlnumDash : RE := .one (fun c => isPyAlnum c || c = '-')

def cDomain : RE := .one (fun c => isPyAlnum c || c = '.' || c = '-')

def cNotSp : RE := .one (fun c => !isPySpace c)

def cHex : RE := .one (fun c => ('a' ≤ c && c ≤ 'f') || isPyDigit c)

def cB64url : RE := .one (fun c => isPyAlnum c || c = '_' || c = '-')

def cB64 : RE := .one (fun c => isPyAlnum c || c = '+' || c = '/' || c = '=')

def cNotRPar : RE := .one (fun c => c ≠ ')')

def cNotRBrack : RE := .one (fun c => c ≠ ']')

def cNotGT : RE := .one (fun c => c ≠ '>')

def cNotLT : RE := .one (fun c => c ≠ '<')

def cNotNL : RE := .one (fun c => c ≠ '\n')

def cNotQSp : RE := .one (fun c => c ≠ '?' && !isPySpace c)

/-- The prefix pattern https?:// . -/
def httpS : RE := seqs [lit "http", opt (chrE 's'), lit "://"]

/-- clean_tracking_urls: each step is the faithful transcription of one
re.sub of the source, in source order. -/
def clean_tracking_urls (t0 : List Char) : List Char :=
  let t := pySub (seqs [lit "https://urldefense.com/v3/__",
    .grp 1 (many1 (.one (fun c => c ≠ '_'))), lit "__",
    many cNotSpParBrace]) [.ref 1] t0
  let t := pyDel (seqs [lit "https://", many1 cAlnumDash, lit ".",
    .alt (seqs [lit "na", many digit]) (seqs [lit "eu", many digit]),
    lit ".hubspotlinks.com/", many1 cNotSpParBr]) t
  let t := pyDel (seqs [httpS, lit "track.editorialmanager.com/",
    many1 cNotSpParBr]) t
  let t := pyDel (seqs [lit "![", manyL dotN, lit "](https://",
    many cNotRPar, lit "hubspot", many cNotRPar, lit ")"]) t
  let t := pyDel (seqs [lit "![](http", many1 cNotRPar, lit ")"]) t
  let t := pyDel (seqs [lit "https://hs-", many1 digit,
    lit ".s.hubspotemail.net/", many1 cNotSpParBr]) t
  let t := pyDel (seqs [lit "https://hs-", many1 digit,
    lit ".f.hubspotemail.net/", many1 cNotSpParBr]) t
  let t := pyDel (seqs [lit "https://click.enews.united.com/",
    many1 cNotSpParBr]) t
  let t := pyDel (seqs [lit "https://click.o.delta.com/",
    many1 cNotSpParBr]) t
  let t := pyDel (seqs [lit "https://view.o.delta.com/",
    many1 cNotSpParBr]) t
  let t := pyDel (seqs [lit "https://click.", many1 cDomain, lit "/",
    many cNotSpParBr, lit "?qs=", atLeast 40 cHex, many cNotSpParBr]) t
  let t := pyDel (seqs [lit "https://view.", many1 cDomain, lit "/",
    many cNotSpParBr, lit "?qs=", atLeast 40 cHex, many cNotSpParBr]) t
  let t := pyDel (seqs [httpS, many1 cNotSp, atLeast 50 cHex,
    many cNotSp]) t
  let t := pyDel (seqs [httpS, many cDomain, lit "sendgrid",
    many1 cNotSpParBr]) t
  let t := pyDel (seqs [httpS, many cDomain, lit "mailchimp",
    many1 cNotSpParBr]) t
  let t := pyDel (seqs [httpS, many cDomain, lit "campaign-archive",
    many1 cNotSpParBr]) t
  let t := pyDel (seqs [httpS, lit "links.loyalty.email.ikea.com/",
    many1 cNotSpParBr]) t
  let t := pyDel (seqs [httpS, many cDomain, lit ".email.", many1 cDomain,
    lit "/", many cNotSpParBr, atLeast 30 cB64url, many cNotSpParBr]) t
  let t := pyDel (seqs [httpS, many1 cNotSp, lit "/", atLeast 40 cB64url,
    chrE '~', many cNotSp]) t
  let t := pyDel (seqs [httpS, lit "track.wordsmarts.com/",
    many1 cNotSpParBr]) t
  let t := pyDel (seqs [httpS, lit "track.recommendedreads.com/",
    many1 cNotSpParBr]) t
  let t := pyDel (seqs [httpS, lit "click.mlsend.com/",
    many1 cNotSpParBr]) t
  let t := pyDel (seqs [httpS, lit "click.hyatt.com/",
    many1 cNotSpParBr]) t
  let t := pyDel (seqs [httpS, lit "mailchi.mp/", many1 cNotSpParBr]) t
  let t := pyDel (seqs [httpS, many1 cDomain, lit ".list-manage.com/",
    many1 cNotSpParBr]) t
  let t := pyDel (seqs [httpS, lit "click.", many1 cDomain, lit ".com/",
    many1 cNotSpParBr]) t
  let t := pyDel (seqs [httpS, lit "track.", many1 cDomain, lit ".com/",
    many1 cNotSpParBr]) t
  let t := pyDel (seqs [httpS, lit "ctrk.", many1 cDomain, lit ".com/",
    many1 cNotSpParBr]) t
  let t := pySub (seqs [.grp 1 (seqs
    [lit "https://www.linkedin.com/comm/messaging/thread/",
     many1 cNotQSp]), lit "?", many1 cNotSpParBr]) [.ref 1] t
  let t := pySub (seqs [.grp 1 (seqs [lit "https://www.linkedin.com/",
    betw 1 50 cNotQSp]), lit "?", atLeast 80 cNotSpParBr]) [.ref 1] t
  let t := pySubS (seqs [lit "https://nam", many1 digit,
    lit ".safelinks.protection.outlook.com/", many1 cNotSpParBr])
    "[link]" t
  t

/-- The tag-name alternation of clean_html_tags, in source order. -/
def htmlTagNames : RE :=
  alts [litCI "div", litCI "span", litCI "p", litCI "br", litCI "table",
    litCI "tr", litCI "td", litCI "th", litCI "tbody", litCI "thead",
    litCI "b", litCI "i", litCI "strong", litCI "em", litCI "u",
    litCI "font", litCI "center", litCI "style", litCI "script"]

/-- clean_html_tags, transcribed sub by sub in source order. -/
def clean_html_tags (t0 : List Char) : List Char :=
  let t := pySub (seqs [litCI "<a", many1 wsp, many cNotGT, lit ">",
    .grp 1 (many cNotLT), litCI "</a>"]) [.ref 1] t0
  let t := pyDel (seqs [litCI "<img", many1 wsp, many cNotGT,
    opt (chrE '/'), lit ">"]) t
  let t := pyDel (seqs [lit "<", opt (chrE '/'), htmlTagNames,
    many cNotGT, opt (chrE '/'), lit ">"]) t
  let t := pyDel (seqs [lit "<", many1 cNotGT, lit ">"]) t
  let t := pySubS (lit "&#8209;") "-" t
  let t := pySubS (lit "&#8211;") "–" t
  let t := pySubS (lit "&#8212;") "—" t
  let t := pySubS (lit "&#8217;") (String.singleton (Char.ofNat 39)) t
  let t := pySubS (lit "&#8220;") "\"" t
  let t := pySubS (lit "&#8221;") "\"" t
  let t := pySubS (lit "&#8230;") "..." t
  let t := pyDel (seqs [lit "&#", many1 digit, lit ";"]) t
  t

/-- One MIME header line pattern Name:\s*[^\n]+\n used by
remove_attachment_metadata. -/
def mimeHdr (name : String) : RE :=
  seqs [lit name, many wsp, many1 cNotNL, lit "\n"]

/-- remove_attachment_metadata. -/
def remove_attachment_metadata (t0 : List Char) : List Char :=
  let t := pySubS (seqs [mimeHdr "Content-Type:",
    mimeHdr "Content-Disposition:",
    opt (mimeHdr "Content-Transfer-Encoding:"),
    opt (mimeHdr "Content-ID:"),
    opt (mimeHdr "X-Attachment-Id:")]) "[Attachment]\n" t0
  let t := pyDel (seqs [lit "X-Attachment-Id:", many wsp, many1 cNotNL,
    opt (lit "\n")]) t
  let t := pyDel (seqs [lit "Content-ID:", many wsp, lit "<",
    many1 cNotGT, lit ">", opt (lit "\n")]) t
  t

/-- clean_markdown_artifacts. -/
def clean_markdown_artifacts (t0 : List Char) : List Char :=
  let t := pyDel (seqs [lit "![", manyL dotN, lit "](", many1 cNotRPar,
    lit ")"]) t0
  let t := pySub (seqs [lit "[", .grp 1 (many1 cNotRBrack), lit "](",
    atLeast 80 cNotRPar, lit ")"]) [.ref 1] t
  let t := pyDel (lit "[link]") t
  let t := pyDel (seqs [lit "[", many wsp, lit "](", many1 cNotRPar,
    lit ")"]) t
  let t := pyDel (seqs [lit "(", many wsp, lit ")"]) t
  let t := pyReplace "\\--".data "--".data t
  let t := pyReplace "\\[".data "[".data t
  let t := pyReplace "\\]".data "]".data t
  let t := pyDel (seqs [.bolM, lit "##", many1 wsp]) t
  let t := pySubS (seqs [lit "[image: ", many1 cNotRBrack, lit "]"])
    "[Image]" t
  let t := pySubS (seqs [lit "![", many cNotRBrack, lit "](cid:",
    many1 cNotRPar, lit ")"]) "[Image]" t
  let t := pySubS (seqs [lit "[cid:", many1 cNotRBrack, lit "]"])
    "[Image]" t
  t

end EmailSel

namespace EmailSel

/-! remove_duplicate_content: the separator pattern \n---\n is a literal,
so re.split is modelled by a direct leftmost non-overlapping split, and
the multiline search for ^Message \d+ by a per-line check. -/

/-- re.split(r-backslash-n---backslash-n, text): leftmost,
non-overlapping. -/
def splitSepAux : List Char → List Char → List (List Char)
  | '\n' :: '-' :: '-' :: '-' :: '\n' :: rest, acc =>
    acc :: splitSepAux rest []
  | c :: rest, acc => splitSepAux rest (acc ++ [c])
  | [], acc => [acc]

def splitSep (t : List Char) : List (List Char) :=
  splitSepAux t []

/-- A line matched by ^Message \d+ (multiline): it starts with the
literal "Message " followed by at least one digit. -/
def msgHeaderLine (l : List Char) : Bool :=
  startsWithL "Message ".data l &&
    (match l.drop 8 with
     | c :: _ => isPyDigit c
     | [] => false)

/-- re.search(r-caret-Message backslash-d+, part.strip(), re.MULTILINE)
succeeds iff some line of the stripped part is a message header. -/
def hasMsgHeader (p : List Char) : Bool :=
  (splitNL (pyStrip p)).any msgHeaderLine

/-- remove_duplicate_content.  The source indexes parts[0] in its
fallback branch, which would raise on an empty list; that partial access
is modelled with Option. -/
def remove_duplicate_content (t : List Char) : Option (List Char) :=
  let parts := splitSep t
  if parts.length ≤ 1 then some t
  else
    let messageParts := parts.filter hasMsgHeader
    if messageParts.isEmpty then (parts.head?).map pyStrip
    else some (joinSep "\n\n".data messageParts)

/-- The lookahead (?=\n\n|\Z). -/
def aheadParaEnd : RE := .ahead (.alt (lit "\n\n") .eos)

/-- clean_boilerplate, transcribed rule by rule in source order. -/
def clean_boilerplate (t0 : List Char) : List Char :=
  let t := keepFirstOnly (seqs
    [litCI "The information contained in this electronic message may be legally privileged",
     manyL dotA,
     .ahead (alts [lit "\n\n", seqs [lit "\n", atLeast 3 (chrE '*')], .eos])]) t0
  let t := pySubS (seqs [lit "\n", atLeast 3 (chrE '*'), lit "\n"]) "\n" t
  let t := keepFirstOnly
    (litCI "Please consider the environment before printing this e-mail") t
  let t := pyDel (seqs [opt (chrE '_'),
    litCI "Notice of confidentiality:", manyL dotA, aheadParaEnd]) t
  let t := pyDel (seqs
    [litCI "In compliance with data protection regulations",
     manyL dotA, aheadParaEnd]) t
  let t := pyDel (seqs [many dotN, litCI "Unsubscribe", many dotN,
    opt (lit "\n")]) t
  let t := pyDel (seqs [many dotN, litCI "Manage preferences", many dotN,
    opt (lit "\n")]) t
  let t := pyDel (seqs [many dotN, litCI "Email preferences", many dotN,
    opt (lit "\n")]) t
  let t := pyDel (seqs [many dotN, litCI "Privacy policy", many dotN,
    opt (lit "\n")]) t
  let t := pyDel (seqs [many dotN, litCI "Contact us", many dotN,
    chrE '|', many dotN, opt (lit "\n")]) t
  let t := pyDel (seqs [many dotN, litCI "View as a web page", many dotN,
    opt (lit "\n")]) t
  let t := pyDel (seqs [many dotN, litCI "Download the latest", many dotN,
    litCI "app", many dotN, opt (lit "\n")]) t
  let t := pyDel (seqs [lit "Forbes Councils,", many wsp, many1 digit,
    many1 cNotNL, opt (lit "\n")]) t
  let t := pyDel (seqs [lit "(c)", many wsp, times 4 digit, many1 wsp,
    lit "United Airlines", manyL dotA, aheadParaEnd]) t
  let t := pyDel (seqs [lit "United Airlines", opt (chrE ','), many1 wsp,
    lit "Inc.", manyL dotA, aheadParaEnd]) t
  let t := pyDel (seqs [lit "We do not monitor electronic replies",
    manyL dotN, lit "\n"]) t
  let t := pyDel (seqs [lit "(mailto:", many1 cNotRPar, lit ")"]) t
  let t := pyDel (seqs [lit "([link]", many wsp, lit ")"]) t
  let t := pyDel (seqs [lit "[link]", many wsp, lit "([link]", many wsp,
    lit ")"]) t
  let t := pySubS (seqs [lit "[link]", many wsp, lit "\n"]) "\n" t
  let t := pyDel (lit "[link]") t
  let t := pyDel (lit "[image]") t
  let t := pyDel (lit "[Image]") t
  let t := pySubS (seqs [lit "\n", many wsp,
    atLeast 3 (.one (fun c => c = '-' || c = '*')), many wsp, lit "\n"])
    "\n\n" t
  let t := pySubS (seqs [lit "\n", many wsp, lit "* * *", many wsp,
    lit "\n"]) "\n\n" t
  let t := pyReplace "&reg;".data "®".data t
  let t := pyReplace "&nbsp;".data " ".data t
  let t := pyReplace "&rsaquo;".data "›".data t
  let t := pyReplace "&lsaquo;".data "‹".data t
  let t := pyReplace "&rsquo;".data [Char.ofNat 39] t
  let t := pyReplace "&lsquo;".data [Char.ofNat 39] t
  let t := pyReplace "&rdquo;".data "\"".data t
  let t := pyReplace "&ldquo;".data "\"".data t
  let t := pyReplace "&amp;".data "&".data t
  let t := pyReplace "&lt;".data "<".data t
  let t := pyReplace "&gt;".data ">".data t
  let t := pyReplace "<sup>".data [] t
  let t := pyReplace "</sup>".data [] t
  let t := pyReplace "&trade;".data "™".data t
  let t := pyReplace "&copy;".data "©".data t
  let t := pyReplace "&mdash;".data "—".data t
  let t := pyReplace "&ndash;".data "–".data t
  let t := pyReplace "&hellip;".data "...".data t
  let t := pyReplace "&bull;".data "•".data t
  let t := pyReplace "&dagger;".data "†".data t
  let t := pyReplace "&quot;".data "\"".data t
  let t := pyReplace "&apos;".data [Char.ofNat 39] t
  let t := pyReplace "&game;".data [] t
  let t := pyReplace "&lan;".data [] t
  let t := pyReplace "&logout;".data [] t
  t

/-- The signature pattern of clean_signatures (re.IGNORECASE); every
group of the Python pattern is non-capturing and optional. -/
def sigRE : RE :=
  seqs [litCI "Gabriel Kreiman", many wsp, lit "\n",
    opt (seqs [litCI "Professor", many wsp, lit "\n"]),
    opt (seqs [litCI "Children", .one (fun c => c = Char.ofNat 39),
      litCI "s Hospital", opt (chrE ','), many wsp]),
    opt (seqs [litCI "Harvard Medical School", many wsp, lit "\n"]),
    opt (seqs [litCI "http://klab.tch.harvard.edu", opt (chrE '/'),
      many wsp, lit "\n"]),
    opt (seqs [litCI "http", opt (chrCI 's'), litCI "://twitter.com/gkreiman",
      many wsp, lit "\n"]),
    opt (seqs [manyL dotN, litCI "Check out our new book", manyL dotN,
      lit "\n"]),
    opt (seqs [manyL dotN, litCI "cambridge.org", manyL dotN, lit "\n"])]

/-- clean_signatures. -/
def clean_signatures (t : List Char) : List Char :=
  replaceAfterFirst sigRE "\n-- Gabriel Kreiman\n".data t

/-- The quote-depth loop of simplify_quoted_replies: while the stripped
line starts with a quote marker, count it and lstrip again.  Each
iteration consumes the marker, so the fuel (line length plus one) is
never exhausted. -/
def qdLoop : Nat → List Char → Nat
  | 0, _ => 0
  | f + 1, cs =>
    match cs with
    | '>' :: rest => 1 + qdLoop f (pyLstrip rest)
    | _ => 0

def quoteDepth (line : List Char) : Nat :=
  qdLoop (line.length + 1) (pyLstrip line)

/-- The line loop of simplify_quoted_replies. -/
def sqrLoop : List (List Char) → Bool → List (List Char)
  | [], _ => []
  | line :: rest, inDeep =>
    if quoteDepth line ≤ 1 then line :: sqrLoop rest false
    else if inDeep then sqrLoop rest true
    else "[Previous messages truncated]".data :: sqrLoop rest true

def simplify_quoted_replies (t : List Char) : List Char :=
  joinSep "\n".data (sqrLoop (splitNL t) false)

/-- clean_whitespace, transcribed rule by rule in source order. -/
def clean_whitespace (t0 : List Char) : List Char :=
  let t := pySubS (atLeast 3 (chrE '\n')) "\n\n" t0
  let t := pySubS (seqs [many1 (.one (fun c => c = ' ' || c = '\t')),
    lit "\n"]) "\n" t
  let t := pyStrip t
  let t := pySubS (seqs [lit "\n", many wsp, lit "[...]", many wsp,
    lit "\n"]) "\n" t
  let t := pySubS (seqs [lit "\n", many wsp, opt (chrE '|'), many wsp,
    lit "\n"]) "\n" t
  let t := pySubS (seqs [lit "\n|",
    many (.one (fun c => c ≠ '|' && !isPyAlnum c)), opt (chrE '|'),
    lit "\n"]) "\n" t
  let t := pyDel (seqs [lit "[", many wsp, lit "]"]) t
  let t := pyDel (seqs [lit "(", many wsp, lit ")"]) t
  let t := pySubS (atLeast 100 cB64) "[encoded content removed]" t
  let t := pyDel (atLeast 10 (chrE '_')) t
  let t := pyDel (seqs [lit "](tel:", many1 cNotRPar, lit ")"]) t
  let t := pyDel (seqs [lit "](\n", many cNotRPar, lit ")"]) t
  let t := pyReplace [Char.ofNat 0x200b] [] t
  let t := pyReplace [Char.ofNat 0x200c] [] t
  let t := pyReplace [Char.ofNat 0x200d] [] t
  let t := pyReplace [Char.ofNat 0x202f] " ".data t
  let t := pyReplace [Char.ofNat 0xad] [] t
  let t := pyReplace [Char.ofNat 0xfeff] [] t
  let t := pySubS (seqs [lit "\n", many1 (.one (fun c =>
    isPySpace c || c = Char.ofNat 0x200c || c = Char.ofNat 0x200b)),
    lit "\n"]) "\n" t
  let t := pyDel (many1 (.grp 1 (seqs
    [.one (fun c => c = Char.ofNat 0x200c), many wsp]))) t
  let t := pyReplace "\x0d\n".data "\n".data t
  let t := pyReplace "\x0d".data "\n".data t
  t

/-- clean_email_content: the nine stages applied in source order. -/
def clean_email_content (s : String) : Option String :=
  let t := clean_tracking_urls s.data
  let t := clean_html_tags t
  let t := remove_attachment_metadata t
  let t := clean_markdown_artifacts t
  (remove_duplicate_content t).map (fun t =>
    String.mk (clean_whitespace (simplify_quoted_replies
      (clean_signatures (clean_boilerplate t)))))

end EmailSel

namespace EmailSel

/-!
select_350_emails.py.  A record carries the fields the selector reads.
random.shuffle consumes the hidden state of the module RNG seeded by
random.seed(42); it is modelled by an explicit shuffle function taking
the index of the shuffle invocation, threaded through the run, so that a
fixed seed corresponds to a fixed shuffle function.
-/

structure Email where
  thread_id : String
  fromF : String
  full_content : String
  personal_or_work : String
deriving DecidableEq, Repr

def WORK_TARGETS : List (String × Nat) :=
  [("1-msg", 100), ("2-msg", 60), ("3+msg", 40)]

def PERSONAL_TARGETS : List (String × Nat) :=
  [("1-msg", 75), ("2-msg", 45), ("3+msg", 30)]

def MAX_PER_SENDER : Nat := 10

/-- The character class [\w.-] of extract_sender's address pattern. -/
def isEmailCls (c : Char) : Bool :=
  isPyWord c || c = '.' || c = '-'

/-- re.search of [\w.-]+@[\w.-]+ at one starting position.  Because the
class excludes the at-sign, the first [\w.-]+ is forced to the maximal
class run from the start, so the backtracking search reduces to: a
non-empty run, an at-sign, then a non-empty greedy run. -/
def emailMatchAt (l : List Char) : Option (List Char) :=
  let run := l.takeWhile isEmailCls
  if run = [] then none
  else
    match l.dropWhile isEmailCls with
    | [] => none
    | c :: r2 =>
      if c = '@' then
        let run2 := r2.takeWhile isEmailCls
        if run2 = [] then none else some (run ++ '@' :: run2)
      else none

/-- The scan over leftmost starting positions of re.search. -/
def emailSearch : List Char → Option (List Char)
  | [] => none
  | c :: rest =>
    match emailMatchAt (c :: rest) with
    | some m => some m
    | none => emailSearch rest

/-- extract_sender. -/
def extract_sender (e : Email) : String :=
  let fromField := pyLower e.fromF.data
  match emailSearch fromField with
  | some m => String.mk m
  | none => if fromField = [] then "unknown" else String.mk (fromField.take 50)

/-- count_messages: len(re.findall(r-caret-Message backslash-d+,
content, re.MULTILINE)); the pattern cannot cross a newline, so the
count is the number of lines starting with a message header. -/
def count_messages (e : Email) : Nat :=
  ((splitNL e.full_content.data).filter msgHeaderLine).length

/-- get_message_bucket. -/
def get_message_bucket (e : Email) : String :=
  let msgCount := count_messages e
  if msgCount = 1 then "1-msg"
  else if msgCount = 2 then "2-msg"
  else if msgCount ≥ 3 then "3+msg"
  else "1-msg"

/-- The loop of sample_with_global_sender_cap over the shuffled list:
break once the target is reached, otherwise accept a record exactly when
its sender count is below the cap, incrementing the count. -/
def sampleLoop (targetCount cap : Nat) (cnt : String → Nat)
    (sel : List Email) : List Email → List Email × (String → Nat)
  | [] => (sel, cnt)
  | e :: rest =>
    if sel.length ≥ targetCount then (sel, cnt)
    else
      let sender := extract_sender e
      if cnt sender < cap then
        sampleLoop targetCount cap
          (fun t => if t = sender then cnt t + 1 else cnt t)
          (sel ++ [e]) rest
      else
        sampleLoop targetCount cap cnt sel rest

/-- sample_with_global_sender_cap: shuffle a copy of the candidate list
(one consumption of the RNG stream, here the k-th), then run the
accepting loop. -/
def sample_with_global_sender_cap (shuffle : Nat → List Email → List Email)
    (k : Nat) (emails : List Email) (targetCount cap : Nat)
    (cnt : String → Nat) : List Email × (String → Nat) :=
  sampleLoop targetCount cap cnt [] (shuffle k emails)

/-- The per-bucket loop of select_emails_with_global_cap, returning the
selected records, the updated counts, the next shuffle index and the
accumulated shortfall. -/
def bucketPasses (shuffle : Nat → List Email → List Email) :
    List (String × Nat) → List Email → (String → Nat) → Nat →
    List Email × (String → Nat) × Nat × Nat
  | [], _, cnt, k => ([], cnt, k, 0)
  | (bucket, target) :: rest, emails, cnt, k =>
    let bucketEmails := emails.filter (fun e => get_message_bucket e = bucket)
    let sc := sample_with_global_sender_cap shuffle k bucketEmails target
      MAX_PER_SENDER cnt
    let r := bucketPasses shuffle rest emails sc.2 (k + 1)
    (sc.1 ++ r.1, r.2.1, r.2.2.1, r.2.2.2 + (target - sc.1.length))

/-- select_emails_with_global_cap.  The total_target parameter of the
source is unused by its body and kept for fidelity. -/
def select_emails_with_global_cap (shuffle : Nat → List Email → List Email)
    (emails : List Email) (targets : List (String × Nat))
    (cnt : String → Nat) (k : Nat) (totalTarget : Nat) :
    List Email × (String → Nat) × Nat :=
  let bp := bucketPasses shuffle targets emails cnt k
  let selected := bp.1
  let shortfall := bp.2.2.2
  if shortfall > 0 then
    let selectedIds := selected.map (fun e => e.thread_id)
    let remaining1msg := emails.filter (fun e =>
      get_message_bucket e = "1-msg" && !(selectedIds.contains e.thread_id))
    let add := sample_with_global_sender_cap shuffle bp.2.2.1 remaining1msg
      shortfall MAX_PER_SENDER bp.2.1
    (selected ++ add.1, add.2, bp.2.2.1 + 1)
  else
    (selected, bp.2.1, bp.2.2.1)

/-- The selection core of main: a fresh all-zero sender-count map, the
work pool selected first, then the personal pool with the same counts
and the continued RNG stream. -/
def mainSelect (shuffle : Nat → List Email → List Email)
    (workEmails personalEmails : List Email) : List Email × List Email :=
  let cnt0 : String → Nat := fun _ => 0
  let w := select_emails_with_global_cap shuffle workEmails WORK_TARGETS cnt0 0 200
  let p := select_emails_with_global_cap shuffle personalEmails
    PERSONAL_TARGETS w.2.1 w.2.2 150
  (w.1, p.1)

/-- Number of selected records attributed to one sender key. -/
def countSender (s : String) (l : List Email) : Nat :=
  (l.filter (fun e => extract_sender e = s)).length

end EmailSel

namespace EmailSel

/-!
prepare_data.py: the merge loop.  The metadata table row carries the
fields the header-parsing code reads; the content table is an
association list from thread id to body.  Fields of the produced record
that are copied through unchanged from the row (headlines, topics,
people, anchors, num_memories) are outside the modelled claims and
omitted.
-/

structure MetaRow where
  thread_id : String
  email_preview : String
deriving DecidableEq, Repr

structure MergedEmail where
  thread_id : String
  full_content : String
  email_preview : String
  fromF : String
  toF : String
  subjectF : String
  timeF : String
deriving DecidableEq, Repr

/-- content_map.get(thread_id, ""): dictionary lookup with default. -/
def lookupContent (m : List (String × String)) (k : String) : Option String :=
  match m with
  | [] => none
  | (k0, v) :: rest => if k0 = k then some v else lookupContent rest k

/-- One header field extraction: line.replace(tag, "").strip(). -/
def headerVal (tag : String) (line : List Char) : List Char :=
  pyStrip (pyReplace tag.data [] line)

/-- The header-parsing loop of the merge: for each of the first 20
lines, stripped, the first branch of the if/elif chain whose tag is a
prefix of the line and whose field is still empty records the value. -/
def parseHeadersLoop :
    List (List Char) →
    List Char × List Char × List Char × List Char →
    List Char × List Char × List Char × List Char
  | [], st => st
  | line :: rest, (f, t, s, ti) =>
    let l := pyStrip line
    if startsWithL "From:".data l && f = [] then
      parseHeadersLoop rest (headerVal "From:" l, t, s, ti)
    else if startsWithL "To:".data l && t = [] then
      parseHeadersLoop rest (f, headerVal "To:" l, s, ti)
    else if startsWithL "Subject:".data l && s = [] then
      parseHeadersLoop rest (f, t, headerVal "Subject:" l, ti)
    else if startsWithL "Time:".data l && ti = [] then
      parseHeadersLoop rest (f, t, s, headerVal "Time:" l)
    else
      parseHeadersLoop rest (f, t, s, ti)

/-- content_for_parsing.split("\n")[:20]. -/
def headerWindow (content : String) : List (List Char) :=
  (splitNL content.data).take 20

def parseHeaders (content : String) :
    List Char × List Char × List Char × List Char :=
  parseHeadersLoop (headerWindow content) ([], [], [], [])

/-- content_for_parsing = full_content if full_content else preview. -/
def contentForParsing (m : List (String × String)) (row : MetaRow) : String :=
  let fullContent := (lookupContent m row.thread_id).getD ""
  if fullContent ≠ "" then fullContent else row.email_preview

/-- One iteration of the merge loop of prepare_data.py. -/
def mergeRecord (m : List (String × String)) (row : MetaRow) : MergedEmail :=
  let fullContent := (lookupContent m row.thread_id).getD ""
  let st := parseHeaders (contentForParsing m row)
  { thread_id := row.thread_id
    full_content := fullContent
    email_preview := row.email_preview
    fromF := String.mk st.1
    toF := String.mk st.2.1
    subjectF := String.mk st.2.2.1
    timeF := String.mk st.2.2.2 }

/-- The first header line of the window whose extracted value is
non-empty; empty if there is none.  This characterises the loop above:
a matching line whose value strips to nothing leaves the field empty, so
a later matching line can still fill it. -/
def firstNonEmptyHeaderVal (tag : String) : List (List Char) → List Char
  | [] => []
  | line :: rest =>
    let l := pyStrip line
    if startsWithL tag.data l && headerVal tag l ≠ [] then headerVal tag l
    else firstNonEmptyHeaderVal tag rest

/-- Modelled from the spec: the claim reads "the first matching line
wins and later duplicate header lines in that window are ignored", i.e.
the field is the extracted value of the first line of the window that
starts with the tag, whatever that value is. -/
def specFirstHeaderVal (tag : String) : List (List Char) → List Char
  | [] => []
  | line :: rest =>
    let l := pyStrip line
    if startsWithL tag.data l then headerVal tag l
    else specFirstHeaderVal tag rest

end EmailSel

namespace EmailSel

/-! Lemmas about the sampling loop. -/

theorem countSender_append (s : String) (l1 l2 : List Email) :
    countSender s (l1 ++ l2) = countSender s l1 + countSender s l2 := by
  simp [countSender, List.filter_append]

theorem countSender_cons (s : String) (e : Email) (l : List Email) :
    countSender s (e :: l) =
      (if extract_sender e = s then 1 else 0) + countSender s l := by
  by_cases h : extract_sender e = s
  · simp [countSender, List.filter_cons, h]
    omega
  · simp [countSender, List.filter_cons, h]

/-- The accepting loop appends some subsequence of its candidate list to
the accumulator and adds exactly the accepted records of each sender to
the count map. -/
theorem sampleLoop_spec (target cap : Nat) :
    ∀ (l : List Email) (cnt : String → Nat) (sel : List Email),
      ∃ extra, (sampleLoop target cap cnt sel l).1 = sel ++ extra ∧
        List.Sublist extra l ∧
        ∀ s, (sampleLoop target cap cnt sel l).2 s = cnt s + countSender s extra := by
  intro l
  induction l with
  | nil =>
    intro cnt sel
    exact ⟨[], by simp [sampleLoop, countSender]⟩
  | cons e rest ih =>
    intro cnt sel
    by_cases h1 : sel.length ≥ target
    · refine ⟨[], ?_⟩
      simp [sampleLoop, h1, countSender]
    · by_cases h2 : cnt (extract_sender e) < cap
      · obtain ⟨extra, he, hs, hc⟩ :=
          ih (fun t => if t = extract_sender e then cnt t + 1 else cnt t)
            (sel ++ [e])
        refine ⟨e :: extra, ?_, List.Sublist.cons₂ e hs, ?_⟩
        · simp only [sampleLoop, if_neg h1, if_pos h2]
          rw [he, List.append_assoc]
          rfl
        · intro s
          simp only [sampleLoop, if_neg h1, if_pos h2]
          rw [hc s, countSender_cons]
          by_cases hse : extract_sender e = s
          · subst hse
            simp only [eq_self_iff_true, if_true]
            omega
          · have hse2 : ¬ (s = extract_sender e) := fun h => hse h.symm
            simp [hse, hse2]
      · obtain ⟨extra, he, hs, hc⟩ := ih cnt sel
        refine ⟨extra, ?_, List.Sublist.cons e hs, ?_⟩
        · simp only [sampleLoop, if_neg h1, if_neg h2]
          exact he
        · intro s
          simp only [sampleLoop, if_neg h1, if_neg h2]
          exact hc s

/-- The loop never pushes a sender count above the cap. -/
theorem sampleLoop_cap (target cap : Nat) (s : String) :
    ∀ (l : List Email) (cnt : String → Nat) (sel : List Email),
      cnt s ≤ cap → (sampleLoop target cap cnt sel l).2 s ≤ cap := by
  intro l
  induction l with
  | nil => intro cnt sel h; simpa [sampleLoop] using h
  | cons e rest ih =>
    intro cnt sel h
    by_cases h1 : sel.length ≥ target
    · simpa [sampleLoop, h1] using h
    · by_cases h2 : cnt (extract_sender e) < cap
      · simp only [sampleLoop, if_neg h1, if_pos h2]
        refine ih _ _ ?_
        by_cases hse : s = extract_sender e
        · simp only [if_pos hse]
          rw [hse]
          omega
        · simpa [hse] using h
      · simp only [sampleLoop, if_neg h1, if_neg h2]
        exact ih cnt sel h

/-- The loop never selects more than the target. -/
theorem sampleLoop_len (target cap : Nat) :
    ∀ (l : List Email) (cnt : String → Nat) (sel : List Email),
      sel.length ≤ target → (sampleLoop target cap cnt sel l).1.length ≤ target := by
  intro l
  induction l with
  | nil => intro cnt sel h; simpa [sampleLoop] using h
  | cons e rest ih =>
    intro cnt sel h
    by_cases h1 : sel.length ≥ target
    · simpa [sampleLoop, h1] using h
    · by_cases h2 : cnt (extract_sender e) < cap
      · simp only [sampleLoop, if_neg h1, if_pos h2]
        refine ih _ _ ?_
        simp only [List.length_append, List.length_singleton]
        omega
      · simp only [sampleLoop, if_neg h1, if_neg h2]
        exact ih cnt sel h

end EmailSel

namespace EmailSel

/-! Lemmas about one sampling call and the per-bucket passes. -/

theorem sample_spec (shuffle : Nat → List Email → List Email) (k : Nat)
    (emails : List Email) (target cap : Nat) (cnt : String → Nat) :
    List.Sublist (sample_with_global_sender_cap shuffle k emails target cap cnt).1
        (shuffle k emails) ∧
      ∀ s, (sample_with_global_sender_cap shuffle k emails target cap cnt).2 s =
        cnt s + countSender s
          (sample_with_global_sender_cap shuffle k emails target cap cnt).1 := by
  obtain ⟨extra, he, hs, hc⟩ := sampleLoop_spec target cap (shuffle k emails) cnt []
  unfold sample_with_global_sender_cap
  rw [he]
  simp only [List.nil_append]
  exact ⟨hs, hc⟩

theorem sample_cap (shuffle : Nat → List Email → List Email) (k : Nat)
    (emails : List Email) (target cap : Nat) (cnt : String → Nat) (s : String)
    (h : cnt s ≤ cap) :
    (sample_with_global_sender_cap shuffle k emails target cap cnt).2 s ≤ cap :=
  sampleLoop_cap target cap s (shuffle k emails) cnt [] h

theorem sample_len (shuffle : Nat → List Email → List Email) (k : Nat)
    (emails : List Email) (target cap : Nat) (cnt : String → Nat) :
    (sample_with_global_sender_cap shuffle k emails target cap cnt).1.length ≤ target :=
  sampleLoop_len target cap (shuffle k emails) cnt [] (by simp)

/-- Sum of the per-bucket target counts. -/
def sumTargets (ts : List (String × Nat)) : Nat :=
  (ts.map (fun bt => bt.2)).sum

theorem bucketPasses_counts (shuffle : Nat → List Email → List Email) (s : String) :
    ∀ (targets : List (String × Nat)) (emails : List Email)
      (cnt : String → Nat) (k : Nat),
      (bucketPasses shuffle targets emails cnt k).2.1 s =
        cnt s + countSender s (bucketPasses shuffle targets emails cnt k).1 := by
  intro targets
  induction targets with
  | nil => intro emails cnt k; simp [bucketPasses, countSender]
  | cons bt rest ih =>
    intro emails cnt k
    obtain ⟨b, target⟩ := bt
    simp only [bucketPasses]
    rw [ih, (sample_spec shuffle k _ target MAX_PER_SENDER cnt).2 s,
      countSender_append]
    omega

theorem bucketPasses_cap (shuffle : Nat → List Email → List Email) (s : String) :
    ∀ (targets : List (String × Nat)) (emails : List Email)
      (cnt : String → Nat) (k : Nat),
      cnt s ≤ MAX_PER_SENDER →
      (bucketPasses shuffle targets emails cnt k).2.1 s ≤ MAX_PER_SENDER := by
  intro targets
  induction targets with
  | nil => intro emails cnt k h; simpa [bucketPasses] using h
  | cons bt rest ih =>
    intro emails cnt k h
    obtain ⟨b, target⟩ := bt
    simp only [bucketPasses]
    exact ih _ _ _ (sample_cap shuffle k _ target MAX_PER_SENDER cnt s h)

theorem bucketPasses_len (shuffle : Nat → List Email → List Email) :
    ∀ (targets : List (String × Nat)) (emails : List Email)
      (cnt : String → Nat) (k : Nat),
      (bucketPasses shuffle targets emails cnt k).1.length +
        (bucketPasses shuffle targets emails cnt k).2.2.2 = sumTargets targets := by
  intro targets
  induction targets with
  | nil => intro emails cnt k; simp [bucketPasses, sumTargets]
  | cons bt rest ih =>
    intro emails cnt k
    obtain ⟨b, target⟩ := bt
    have hle := sample_len shuffle k
      (emails.filter (fun e => get_message_bucket e = b)) target MAX_PER_SENDER cnt
    have hrest := ih emails
      (sample_with_global_sender_cap shuffle k
        (emails.filter (fun e => get_message_bucket e = b)) target
        MAX_PER_SENDER cnt).2 (k + 1)
    simp only [bucketPasses, List.length_append, sumTargets, List.map_cons,
      List.sum_cons]
    simp only [sumTargets] at hrest
    omega

theorem bucketPasses_mem (shuffle : Nat → List Email → List Email)
    (hp : ∀ k l, List.Perm (shuffle k l) l) :
    ∀ (targets : List (String × Nat)) (emails : List Email)
      (cnt : String → Nat) (k : Nat) (e : Email),
      e ∈ (bucketPasses shuffle targets emails cnt k).1 →
      e ∈ emails ∧ get_message_bucket e ∈ targets.map Prod.fst := by
  intro targets
  induction targets with
  | nil => intro emails cnt k e he; simp [bucketPasses] at he
  | cons bt rest ih =>
    intro emails cnt k e he
    obtain ⟨b, target⟩ := bt
    simp only [bucketPasses, List.mem_append] at he
    rcases he with he | he
    · have hsub := (sample_spec shuffle k
        (emails.filter (fun e => get_message_bucket e = b)) target
        MAX_PER_SENDER cnt).1
      have hmem := hsub.subset he
      have hmem2 := (hp k _).subset hmem
      rw [List.mem_filter] at hmem2
      refine ⟨hmem2.1, ?_⟩
      simp only [List.map_cons, List.mem_cons]
      left
      exact of_decide_eq_true hmem2.2
    · obtain ⟨h1, h2⟩ := ih _ _ _ _ he
      exact ⟨h1, by simp only [List.map_cons, List.mem_cons]; right; exact h2⟩

end EmailSel

namespace EmailSel

/-- In a pool whose thread ids are distinct, two members with the same
thread id are the same record. -/
theorem mem_eq_of_id_eq {emails : List Email}
    (hnd : (emails.map Email.thread_id).Nodup) {e1 e2 : Email}
    (h1 : e1 ∈ emails) (h2 : e2 ∈ emails)
    (hid : e1.thread_id = e2.thread_id) : e1 = e2 :=
  List.inj_on_of_nodup_map hnd h1 h2 hid

/-- The records accepted by the per-bucket passes have pairwise distinct
thread ids, provided the pool has and the bucket keys are distinct. -/
theorem bucketPasses_nodup (shuffle : Nat → List Email → List Email)
    (hp : ∀ k l, List.Perm (shuffle k l) l) :
    ∀ (targets : List (String × Nat)) (emails : List Email)
      (cnt : String → Nat) (k : Nat),
      (emails.map Email.thread_id).Nodup →
      (targets.map Prod.fst).Nodup →
      ((bucketPasses shuffle targets emails cnt k).1.map Email.thread_id).Nodup := by
  intro targets
  induction targets with
  | nil => intro emails cnt k _ _; simp [bucketPasses]
  | cons bt rest ih =>
    intro emails cnt k hnd hkeys
    obtain ⟨b, target⟩ := bt
    simp only [List.map_cons, List.nodup_cons] at hkeys
    simp only [bucketPasses, List.map_append]
    rw [List.nodup_append]
    have hsub := (sample_spec shuffle k
      (emails.filter (fun e => get_message_bucket e = b)) target
      MAX_PER_SENDER cnt).1
    refine ⟨?_, ih _ _ _ hnd hkeys.2, ?_⟩
    · have hfil : ((emails.filter
          (fun e => get_message_bucket e = b)).map Email.thread_id).Nodup :=
        List.Nodup.sublist (List.Sublist.map _ (List.filter_sublist emails)) hnd
      have hshuf : (((shuffle k (emails.filter
          (fun e => get_message_bucket e = b))).map Email.thread_id)).Nodup :=
        (List.Perm.nodup_iff (List.Perm.map _ (hp k _))).mpr hfil
      exact List.Nodup.sublist (List.Sublist.map _ hsub) hshuf
    · intro x hx1 hx2
      obtain ⟨e1, he1, hx1'⟩ := List.mem_map.mp hx1
      obtain ⟨e2, he2, hx2'⟩ := List.mem_map.mp hx2
      have he1m := (hp k _).subset (hsub.subset he1)
      rw [List.mem_filter] at he1m
      obtain ⟨he2pool, he2key⟩ := bucketPasses_mem shuffle hp rest emails _ _ e2 he2
      have : e1 = e2 :=
        mem_eq_of_id_eq hnd he1m.1 he2pool (by rw [hx1', hx2'])
      apply hkeys.1
      rw [← of_decide_eq_true he1m.2, this]
      exact he2key

end EmailSel

namespace EmailSel

/-! Lemmas about select_emails_with_global_cap. -/

theorem select_counts (shuffle : Nat → List Email → List Email)
    (emails : List Email) (targets : List (String × Nat))
    (cnt : String → Nat) (k tt : Nat) (s : String) :
    (select_emails_with_global_cap shuffle emails targets cnt k tt).2.1 s =
      cnt s + countSender s
        (select_emails_with_global_cap shuffle emails targets cnt k tt).1 := by
  by_cases h : (bucketPasses shuffle targets emails cnt k).2.2.2 > 0
  · simp only [select_emails_with_global_cap, if_pos h]
    rw [(sample_spec shuffle _ _ _ MAX_PER_SENDER _).2 s,
      bucketPasses_counts, countSender_append]
    omega
  · simp only [select_emails_with_global_cap, if_neg h]
    exact bucketPasses_counts shuffle s targets emails cnt k

theorem select_cap (shuffle : Nat → List Email → List Email)
    (emails : List Email) (targets : List (String × Nat))
    (cnt : String → Nat) (k tt : Nat) (s : String)
    (h0 : cnt s ≤ MAX_PER_SENDER) :
    (select_emails_with_global_cap shuffle emails targets cnt k tt).2.1 s ≤
      MAX_PER_SENDER := by
  by_cases h : (bucketPasses shuffle targets emails cnt k).2.2.2 > 0
  · simp only [select_emails_with_global_cap, if_pos h]
    exact sample_cap shuffle _ _ _ MAX_PER_SENDER _ s
      (bucketPasses_cap shuffle s targets emails cnt k h0)
  · simp only [select_emails_with_global_cap, if_neg h]
    exact bucketPasses_cap shuffle s targets emails cnt k h0

theorem select_len (shuffle : Nat → List Email → List Email)
    (emails : List Email) (targets : List (String × Nat))
    (cnt : String → Nat) (k tt : Nat) :
    (select_emails_with_global_cap shuffle emails targets cnt k tt).1.length ≤
      sumTargets targets := by
  have hbp := bucketPasses_len shuffle targets emails cnt k
  by_cases h : (bucketPasses shuffle targets emails cnt k).2.2.2 > 0
  · simp only [select_emails_with_global_cap, if_pos h, List.length_append]
    have hadd := sample_len shuffle (bucketPasses shuffle targets emails cnt k).2.2.1
      (emails.filter (fun e => get_message_bucket e = "1-msg" &&
        !(((bucketPasses shuffle targets emails cnt k).1.map
          (fun e => e.thread_id)).contains e.thread_id)))
      (bucketPasses shuffle targets emails cnt k).2.2.2 MAX_PER_SENDER
      (bucketPasses shuffle targets emails cnt k).2.1
    omega
  · simp only [select_emails_with_global_cap, if_neg h]
    omega

theorem select_mem (shuffle : Nat → List Email → List Email)
    (hp : ∀ k l, List.Perm (shuffle k l) l)
    (emails : List Email) (targets : List (String × Nat))
    (cnt : String → Nat) (k tt : Nat) (e : Email)
    (he : e ∈ (select_emails_with_global_cap shuffle emails targets cnt k tt).1) :
    e ∈ emails := by
  by_cases h : (bucketPasses shuffle targets emails cnt k).2.2.2 > 0
  · simp only [select_emails_with_global_cap, if_pos h, List.mem_append] at he
    rcases he with he | he
    · exact (bucketPasses_mem shuffle hp targets emails cnt k e he).1
    · have hsub := (sample_spec shuffle
        (bucketPasses shuffle targets emails cnt k).2.2.1
        (emails.filter (fun e => get_message_bucket e = "1-msg" &&
        !(((bucketPasses shuffle targets emails cnt k).1.map
          (fun e => e.thread_id)).contains e.thread_id)))
        (bucketPasses shuffle targets emails cnt k).2.2.2 MAX_PER_SENDER
        (bucketPasses shuffle targets emails cnt k).2.1).1
      have := (hp _ _).subset (hsub.subset he)
      exact (List.mem_filter.mp this).1
  · simp only [select_emails_with_global_cap, if_neg h] at he
    exact (bucketPasses_mem shuffle hp targets emails cnt k e he).1

theorem select_nodup (shuffle : Nat → List Email → List Email)
    (hp : ∀ k l, List.Perm (shuffle k l) l)
    (emails : List Email) (targets : List (String × Nat))
    (cnt : String → Nat) (k tt : Nat)
    (hnd : (emails.map Email.thread_id).Nodup)
    (hkeys : (targets.map Prod.fst).Nodup) :
    ((select_emails_with_global_cap shuffle emails targets cnt k tt).1.map
      Email.thread_id).Nodup := by
  have hbp := bucketPasses_nodup shuffle hp targets emails cnt k hnd hkeys
  by_cases h : (bucketPasses shuffle targets emails cnt k).2.2.2 > 0
  · simp only [select_emails_with_global_cap, if_pos h, List.map_append]
    rw [List.nodup_append]
    have hsub := (sample_spec shuffle
      (bucketPasses shuffle targets emails cnt k).2.2.1
      (emails.filter (fun e => get_message_bucket e = "1-msg" &&
        !(((bucketPasses shuffle targets emails cnt k).1.map
          (fun e => e.thread_id)).contains e.thread_id)))
      (bucketPasses shuffle targets emails cnt k).2.2.2 MAX_PER_SENDER
      (bucketPasses shuffle targets emails cnt k).2.1).1
    refine ⟨hbp, ?_, ?_⟩
    · have hfil : (((emails.filter (fun e => get_message_bucket e = "1-msg" &&
          !(((bucketPasses shuffle targets emails cnt k).1.map
            (fun e => e.thread_id)).contains e.thread_id))).map
          Email.thread_id)).Nodup :=
        List.Nodup.sublist (List.Sublist.map _ (List.filter_sublist emails)) hnd
      have hshuf := (List.Perm.nodup_iff (List.Perm.map Email.thread_id
        (hp (bucketPasses shuffle targets emails cnt k).2.2.1 _))).mpr hfil
      exact List.Nodup.sublist (List.Sublist.map _ hsub) hshuf
    · intro x hx1 hx2
      obtain ⟨e2, he2, hx2'⟩ := List.mem_map.mp hx2
      have he2m := (hp _ _).subset (hsub.subset he2)
      rw [List.mem_filter] at he2m
      have he2f := he2m.2
      simp only [Bool.and_eq_true, Bool.not_eq_true'] at he2f
      have : e2.thread_id ∈ (bucketPasses shuffle targets emails cnt k).1.map
          (fun e => e.thread_id) := by
        rw [hx2']
        exact hx1
      have hcontains : (List.map (fun e => e.thread_id)
          (bucketPasses shuffle targets emails cnt k).1).contains
            e2.thread_id = true :=
        List.elem_eq_true_of_mem this
      rw [he2f.2] at hcontains
      exact Bool.false_ne_true hcontains
  · simp only [select_emails_with_global_cap, if_neg h]
    exact hbp

end EmailSel

namespace EmailSel

theorem sample_mem (shuffle : Nat → List Email → List Email)
    (hp : ∀ k l, List.Perm (shuffle k l) l) (k : Nat) (emails : List Email)
    (target cap : Nat) (cnt : String → Nat) (e : Email)
    (he : e ∈ (sample_with_global_sender_cap shuffle k emails target cap cnt).1) :
    e ∈ emails :=
  (hp k emails).subset
    ((sample_spec shuffle k emails target cap cnt).1.subset he)

/-- Shape of one category selection: the bucket passes, plus a backfill
drawn only when they leave a positive shortfall. -/
theorem select_shape (shuffle : Nat → List Email → List Email)
    (hp : ∀ k l, List.Perm (shuffle k l) l)
    (emails : List Email) (targets : List (String × Nat))
    (cnt : String → Nat) (k tt : Nat) :
    ((bucketPasses shuffle targets emails cnt k).2.2.2 = 0 →
      (select_emails_with_global_cap shuffle emails targets cnt k tt).1 =
        (bucketPasses shuffle targets emails cnt k).1) ∧
    ((bucketPasses shuffle targets emails cnt k).2.2.2 > 0 →
      ∃ add, (select_emails_with_global_cap shuffle emails targets cnt k tt).1 =
          (bucketPasses shuffle targets emails cnt k).1 ++ add ∧
        add.length ≤ (bucketPasses shuffle targets emails cnt k).2.2.2 ∧
        ∀ e ∈ add, e ∈ emails ∧ get_message_bucket e = "1-msg" ∧
          e.thread_id ∉ (bucketPasses shuffle targets emails cnt k).1.map
            Email.thread_id) := by
  by_cases h : (bucketPasses shuffle targets emails cnt k).2.2.2 > 0
  · constructor
    · intro h0; omega
    · intro _
      refine ⟨(sample_with_global_sender_cap shuffle
        (bucketPasses shuffle targets emails cnt k).2.2.1
        (emails.filter (fun e => get_message_bucket e = "1-msg" &&
          !(((bucketPasses shuffle targets emails cnt k).1.map
            (fun e => e.thread_id)).contains e.thread_id)))
        (bucketPasses shuffle targets emails cnt k).2.2.2 MAX_PER_SENDER
        (bucketPasses shuffle targets emails cnt k).2.1).1, ?_, ?_, ?_⟩
      · simp only [select_emails_with_global_cap, if_pos h]
      · exact sample_len shuffle _ _ _ MAX_PER_SENDER _
      · intro e he
        have hmem := sample_mem shuffle hp _ _ _ MAX_PER_SENDER _ e he
        rw [List.mem_filter] at hmem
        have hcond := hmem.2
        simp only [Bool.and_eq_true, Bool.not_eq_true', decide_eq_true_eq] at hcond
        refine ⟨hmem.1, hcond.1, ?_⟩
        intro hin
        have hin2 : e.thread_id ∈ (bucketPasses shuffle targets emails cnt k).1.map
            (fun e => e.thread_id) := hin
        have hcontains : ((bucketPasses shuffle targets emails cnt k).1.map
            (fun e => e.thread_id)).contains e.thread_id = true :=
          List.elem_eq_true_of_mem hin2
        rw [hcond.2] at hcontains
        exact Bool.false_ne_true hcontains
  · constructor
    · intro _
      simp only [select_emails_with_global_cap, if_neg h]
    · intro h0; omega

/-! Lemmas about the two-category run of main. -/

theorem mainSelect_cap (shuffle : Nat → List Email → List Email)
    (work personal : List Email) (s : String) :
    countSender s ((mainSelect shuffle work personal).1 ++
      (mainSelect shuffle work personal).2) ≤ MAX_PER_SENDER := by
  simp only [mainSelect]
  rw [countSender_append]
  have hw := select_counts shuffle work WORK_TARGETS (fun _ => 0) 0 200 s
  have hp := select_counts shuffle personal PERSONAL_TARGETS
    (select_emails_with_global_cap shuffle work WORK_TARGETS (fun _ => 0) 0 200).2.1
    (select_emails_with_global_cap shuffle work WORK_TARGETS (fun _ => 0) 0 200).2.2
    150 s
  have hcap := select_cap shuffle personal PERSONAL_TARGETS
    (select_emails_with_global_cap shuffle work WORK_TARGETS (fun _ => 0) 0 200).2.1
    (select_emails_with_global_cap shuffle work WORK_TARGETS (fun _ => 0) 0 200).2.2
    150 s
    (select_cap shuffle work WORK_TARGETS (fun _ => 0) 0 200 s (by simp))
  omega

theorem mainSelect_nodup (shuffle : Nat → List Email → List Email)
    (hp : ∀ k l, List.Perm (shuffle k l) l)
    (work personal : List Email)
    (hnd : ((work ++ personal).map Email.thread_id).Nodup) :
    (((mainSelect shuffle work personal).1 ++
      (mainSelect shuffle work personal).2).map Email.thread_id).Nodup := by
  rw [List.map_append, List.nodup_append] at hnd
  obtain ⟨hndw, hndp, hdisj⟩ := hnd
  simp only [mainSelect, List.map_append]
  rw [List.nodup_append]
  refine ⟨select_nodup shuffle hp work WORK_TARGETS (fun _ => 0) 0 200 hndw
      (by decide),
    select_nodup shuffle hp personal PERSONAL_TARGETS _ _ 150 hndp (by decide),
    ?_⟩
  intro x hx1 hx2
  obtain ⟨e1, he1, hx1'⟩ := List.mem_map.mp hx1
  obtain ⟨e2, he2, hx2'⟩ := List.mem_map.mp hx2
  have he1w := select_mem shuffle hp work WORK_TARGETS (fun _ => 0) 0 200 e1 he1
  have he2p := select_mem shuffle hp personal PERSONAL_TARGETS _ _ 150 e2 he2
  exact hdisj (hx1' ▸ List.mem_map_of_mem Email.thread_id he1w)
    (hx2' ▸ List.mem_map_of_mem Email.thread_id he2p)

end EmailSel

namespace EmailSel

/-! Lemmas about remove_duplicate_content and totality of the pipeline. -/

theorem splitSepAux_ne_nil : ∀ (cs acc : List Char), splitSepAux cs acc ≠ [] := by
  intro cs acc
  induction cs, acc using splitSepAux.induct with
  | case1 rest acc ih => simp [splitSepAux]
  | case2 c rest acc hne ih => simp_all [splitSepAux]
  | case3 acc => simp [splitSepAux]

theorem splitSep_ne_nil (t : List Char) : splitSep t ≠ [] :=
  splitSepAux_ne_nil t []

theorem rdc_single (t : List Char) (h : (splitSep t).length ≤ 1) :
    remove_duplicate_content t = some t := by
  simp [remove_duplicate_content, h]

theorem rdc_multi_msg (t : List Char) (h2 : 2 ≤ (splitSep t).length)
    (hne : (splitSep t).filter hasMsgHeader ≠ []) :
    remove_duplicate_content t =
      some (joinSep "\n\n".data ((splitSep t).filter hasMsgHeader)) := by
  have h1 : ¬ ((splitSep t).length ≤ 1) := by omega
  simp only [remove_duplicate_content, if_neg h1]
  rw [if_neg (by simpa [List.isEmpty_iff] using hne)]

theorem rdc_multi_nomsg (t : List Char) (h2 : 2 ≤ (splitSep t).length)
    (he : (splitSep t).filter hasMsgHeader = []) :
    remove_duplicate_content t = some (pyStrip (splitSep t).headI) := by
  have h1 : ¬ ((splitSep t).length ≤ 1) := by omega
  simp only [remove_duplicate_content, if_neg h1]
  rw [if_pos (by simpa [List.isEmpty_iff] using he)]
  obtain ⟨p0, rest, hsplit⟩ :=
    List.exists_cons_of_ne_nil (splitSep_ne_nil t)
  rw [hsplit]
  simp

theorem rdc_isSome (t : List Char) : ∃ r, remove_duplicate_content t = some r := by
  by_cases h1 : (splitSep t).length ≤ 1
  · exact ⟨t, rdc_single t h1⟩
  · by_cases h2 : (splitSep t).filter hasMsgHeader = []
    · exact ⟨_, rdc_multi_nomsg t (by omega) h2⟩
    · exact ⟨_, rdc_multi_msg t (by omega) h2⟩

end EmailSel

namespace EmailSel

/-! Lemmas about extract_sender for records without an address token. -/

/-- Adjacency witness of the pattern [\w.-]+@[\w.-]+ at the head of the
text: a class character, an at-sign, a class character. -/
def adjHead : List Char → Bool
  | a :: b :: c :: _ => isEmailCls a && b = '@' && isEmailCls c
  | _ => false

/-- The text contains an email-address-shaped token: some position
carries a class character immediately before and after an at-sign,
which is exactly when the regex [\w.-]+@[\w.-]+ has a match. -/
def hasEmailAdj : List Char → Bool
  | [] => false
  | c :: rest => adjHead (c :: rest) || hasEmailAdj rest

theorem toNat_ofNat_valid (n : Nat) (h : Nat.isValidChar n) :
    (Char.ofNat n).toNat = n := by
  simp only [Char.ofNat, dif_pos h]
  simp [Char.ofNatAux, Char.toNat, UInt32.toNat, UInt32.toBitVec]

theorem char_le_iff (a b : Char) : a ≤ b ↔ a.toNat ≤ b.toNat :=
  ⟨fun h => h, fun h => h⟩

theorem isEmailCls_lower (c : Char) :
    isEmailCls (pyLowerChar c) = isEmailCls c := by
  unfold pyLowerChar
  by_cases h : ('A' ≤ c && c ≤ 'Z') = true
  · rw [if_pos h]
    simp only [Bool.and_eq_true, decide_eq_true_eq] at h
    obtain ⟨h1, h2⟩ := h
    have hv1 : 65 ≤ c.toNat := (char_le_iff 'A' c).mp h1
    have hv2 : c.toNat ≤ 90 := (char_le_iff c 'Z').mp h2
    have hval : (Char.ofNat (c.toNat + 32)).toNat = c.toNat + 32 :=
      toNat_ofNat_valid _ (Or.inl (by omega))
    have hc : isEmailCls c = true := by
      simp only [isEmailCls, isPyWord, isPyAlnum, isPyAlpha, Bool.or_eq_true,
        Bool.and_eq_true, decide_eq_true_eq]
      exact Or.inl (Or.inl (Or.inl (Or.inl (Or.inr ⟨h1, h2⟩))))
    have h97 : ('a').toNat = 97 := rfl
    have h122 : ('z').toNat = 122 := rfl
    have ha : 'a' ≤ Char.ofNat (c.toNat + 32) :=
      (char_le_iff 'a' _).mpr (by rw [hval, h97]; omega)
    have hz : Char.ofNat (c.toNat + 32) ≤ 'z' :=
      (char_le_iff _ 'z').mpr (by rw [hval, h122]; omega)
    have hd : isEmailCls (Char.ofNat (c.toNat + 32)) = true := by
      simp only [isEmailCls, isPyWord, isPyAlnum, isPyAlpha, Bool.or_eq_true,
        Bool.and_eq_true, decide_eq_true_eq]
      exact Or.inl (Or.inl (Or.inl (Or.inl (Or.inl ⟨ha, hz⟩))))
    rw [hc, hd]
  · rw [if_neg h]

theorem at_lower (c : Char) :
    (pyLowerChar c = '@') = (c = '@') := by
  unfold pyLowerChar
  by_cases h : ('A' ≤ c && c ≤ 'Z') = true
  · rw [if_pos h]
    simp only [Bool.and_eq_true, decide_eq_true_eq] at h
    obtain ⟨h1, h2⟩ := h
    have hv1 : 65 ≤ c.toNat := (char_le_iff 'A' c).mp h1
    have hv2 : c.toNat ≤ 90 := (char_le_iff c 'Z').mp h2
    have hval : (Char.ofNat (c.toNat + 32)).toNat = c.toNat + 32 :=
      toNat_ofNat_valid _ (Or.inl (by omega))
    have h64 : ('@').toNat = 64 := rfl
    have hne1 : ¬ (Char.ofNat (c.toNat + 32) = '@') := by
      intro he
      have := congrArg Char.toNat he
      rw [hval, h64] at this
      omega
    have hne2 : ¬ (c = '@') := by
      intro he
      have := congrArg Char.toNat he
      rw [h64] at this
      omega
    simp [hne1, hne2]
  · rw [if_neg h]

theorem adjHead_lower (l : List Char) :
    adjHead (pyLower l) = adjHead l := by
  match l with
  | [] => rfl
  | [a] => rfl
  | [a, b] => rfl
  | a :: b :: c :: rest =>
    simp only [pyLower, List.map_cons, adjHead, isEmailCls_lower]
    rw [show (decide (pyLowerChar b = '@')) = (decide (b = '@')) by
      simp [at_lower b]]

theorem hasEmailAdj_lower (l : List Char) :
    hasEmailAdj (pyLower l) = hasEmailAdj l := by
  induction l with
  | nil => rfl
  | cons c rest ih =>
    have hmap : pyLower (c :: rest) = pyLowerChar c :: pyLower rest := rfl
    rw [hmap]
    show (adjHead (pyLowerChar c :: pyLower rest) || hasEmailAdj (pyLower rest)) =
      (adjHead (c :: rest) || hasEmailAdj rest)
    have hadj : adjHead (pyLowerChar c :: pyLower rest) = adjHead (c :: rest) :=
      adjHead_lower (c :: rest)
    rw [ih, hadj]

end EmailSel

namespace EmailSel

theorem emailMatchAt_adj :
    ∀ (l m : List Char), emailMatchAt l = some m → hasEmailAdj l = true := by
  intro l
  induction l with
  | nil => intro m h; simp [emailMatchAt] at h
  | cons a rest ih =>
    intro m h
    by_cases hcls : isEmailCls a = true
    · cases rest with
      | nil =>
        simp [emailMatchAt, List.takeWhile_cons, List.dropWhile_cons, hcls] at h
      | cons b rest2 =>
        by_cases hb : isEmailCls b = true
        · have hdrop : (a :: b :: rest2).dropWhile isEmailCls =
              rest2.dropWhile isEmailCls := by
            simp [List.dropWhile_cons, hcls, hb]
          rcases hd : rest2.dropWhile isEmailCls with _ | ⟨c0, r2⟩
          · simp [emailMatchAt, List.takeWhile_cons, hcls, hdrop, hd] at h
          · by_cases hc0 : c0 = '@'
            · subst hc0
              rcases ht : r2.takeWhile isEmailCls with _ | ⟨d0, r3⟩
              · simp [emailMatchAt, List.takeWhile_cons, hcls, hdrop, hd, ht] at h
              · have hm2 : ∃ m2, emailMatchAt (b :: rest2) = some m2 := by
                  have hdrop2 : (b :: rest2).dropWhile isEmailCls =
                      rest2.dropWhile isEmailCls := by
                    simp [List.dropWhile_cons, hb]
                  simp [emailMatchAt, List.takeWhile_cons, hb, hdrop2, hd, ht]
                obtain ⟨m2, hm2⟩ := hm2
                have hrec := ih m2 hm2
                show (adjHead (a :: b :: rest2) || hasEmailAdj (b :: rest2)) = true
                rw [hrec, Bool.or_true]
            · simp [emailMatchAt, List.takeWhile_cons, hcls, hdrop, hd, hc0] at h
        · have hdrop : (a :: b :: rest2).dropWhile isEmailCls = b :: rest2 := by
            simp [List.dropWhile_cons, hcls, hb]
          by_cases hb0 : b = '@'
          · subst hb0
            rcases ht : rest2.takeWhile isEmailCls with _ | ⟨d0, r3⟩
            · simp [emailMatchAt, List.takeWhile_cons, hcls, hdrop, ht] at h
            · have hd0 : isEmailCls d0 = true := by
                cases rest2 with
                | nil => simp at ht
                | cons x xs =>
                  rw [List.takeWhile_cons] at ht
                  by_cases hx : isEmailCls x = true
                  · rw [if_pos hx] at ht
                    injection ht with ht1 _
                    exact ht1 ▸ hx
                  · rw [if_neg hx] at ht; simp at ht
              have hrest2 : ∃ r4, rest2 = d0 :: r4 := by
                cases rest2 with
                | nil => simp at ht
                | cons x xs =>
                  rw [List.takeWhile_cons] at ht
                  by_cases hx : isEmailCls x = true
                  · rw [if_pos hx] at ht
                    injection ht with ht1 _
                    exact ⟨xs, by rw [ht1]⟩
                  · rw [if_neg hx] at ht; simp at ht
              obtain ⟨r4, hr4⟩ := hrest2
              show (adjHead (a :: '@' :: rest2) || hasEmailAdj ('@' :: rest2)) = true
              rw [hr4]
              show (adjHead (a :: '@' :: d0 :: r4) || hasEmailAdj ('@' :: d0 :: r4)) = true
              simp [adjHead, hcls, hd0]
          · simp [emailMatchAt, List.takeWhile_cons, hcls, hdrop, hb0] at h
    · simp [emailMatchAt, List.takeWhile_cons, hcls] at h

theorem emailSearch_eq_none :
    ∀ (l : List Char), hasEmailAdj l = false → emailSearch l = none := by
  intro l
  induction l with
  | nil => intro _; rfl
  | cons c rest ih =>
    intro h
    have hor : adjHead (c :: rest) = false ∧ hasEmailAdj rest = false := by
      have : (adjHead (c :: rest) || hasEmailAdj rest) = false := h
      exact Bool.or_eq_false_iff.mp this
    cases hma : emailMatchAt (c :: rest) with
    | some m =>
      have := emailMatchAt_adj (c :: rest) m hma
      rw [this] at h
      exact absurd h (by simp)
    | none =>
      simp only [emailSearch, hma]
      exact ih hor.2

theorem extract_sender_no_tok (e : Email)
    (h : hasEmailAdj e.fromF.data = false) (hne : e.fromF ≠ "") :
    extract_sender e = String.mk ((pyLower e.fromF.data).take 50) := by
  have hlow : hasEmailAdj (pyLower e.fromF.data) = false := by
    rw [hasEmailAdj_lower]; exact h
  have hsearch := emailSearch_eq_none _ hlow
  have hne2 : ¬ (pyLower e.fromF.data = []) := by
    intro h0
    apply hne
    have hdata : e.fromF.data = [] := by
      cases hd : e.fromF.data with
      | nil => rfl
      | cons x xs => rw [hd] at h0; simp [pyLower] at h0
    exact String.ext hdata
  simp only [extract_sender, hsearch, if_neg hne2]

theorem extract_sender_empty (e : Email) (h : e.fromF = "") :
    extract_sender e = "unknown" := by
  simp only [extract_sender, h]
  rfl

end EmailSel

namespace EmailSel

/-! The four header tags are mutually exclusive as line prefixes, which
makes the fields of the parsing loop independent of one another. -/

theorem swFT (l : List Char) (h : startsWithL "From:".data l = true) :
    startsWithL "To:".data l = false := by
  cases l with
  | nil => simp [startsWithL, List.isPrefixOf] at h
  | cons c cs =>
    simp only [startsWithL, List.isPrefixOf, Bool.and_eq_true, beq_iff_eq] at h
    obtain ⟨hc, -⟩ := h
    subst hc
    rfl

theorem swFS (l : List Char) (h : startsWithL "From:".data l = true) :
    startsWithL "Subject:".data l = false := by
  cases l with
  | nil => simp [startsWithL, List.isPrefixOf] at h
  | cons c cs =>
    simp only [startsWithL, List.isPrefixOf, Bool.and_eq_true, beq_iff_eq] at h
    obtain ⟨hc, -⟩ := h
    subst hc
    rfl

theorem swFTi (l : List Char) (h : startsWithL "From:".data l = true) :
    startsWithL "Time:".data l = false := by
  cases l with
  | nil => simp [startsWithL, List.isPrefixOf] at h
  | cons c cs =>
    simp only [startsWithL, List.isPrefixOf, Bool.and_eq_true, beq_iff_eq] at h
    obtain ⟨hc, -⟩ := h
    subst hc
    rfl

theorem swTS (l : List Char) (h : startsWithL "To:".data l = true) :
    startsWithL "Subject:".data l = false := by
  cases l with
  | nil => simp [startsWithL, List.isPrefixOf] at h
  | cons c cs =>
    simp only [startsWithL, List.isPrefixOf, Bool.and_eq_true, beq_iff_eq] at h
    obtain ⟨hc, -⟩ := h
    subst hc
    rfl

theorem swTTi (l : List Char) (h : startsWithL "To:".data l = true) :
    startsWithL "Time:".data l = false := by
  cases l with
  | nil => simp [startsWithL, List.isPrefixOf] at h
  | cons c cs =>
    simp only [startsWithL, List.isPrefixOf, Bool.and_eq_true, beq_iff_eq] at h
    obtain ⟨hc, hrest⟩ := h
    subst hc
    cases cs with
    | nil => simp [List.isPrefixOf] at hrest
    | cons d ds =>
      simp only [List.isPrefixOf, Bool.and_eq_true, beq_iff_eq] at hrest
      obtain ⟨hd, -⟩ := hrest
      subst hd
      rfl

theorem swSTi (l : List Char) (h : startsWithL "Subject:".data l = true) :
    startsWithL "Time:".data l = false := by
  cases l with
  | nil => simp [startsWithL, List.isPrefixOf] at h
  | cons c cs =>
    simp only [startsWithL, List.isPrefixOf, Bool.and_eq_true, beq_iff_eq] at h
    obtain ⟨hc, -⟩ := h
    subst hc
    rfl

end EmailSel

namespace EmailSel

/-- Value of the parsing loop: each field keeps its current non-empty
value, and otherwise receives the extracted value of the first line of
the window whose tag matches and whose value is non-empty. -/
theorem parseHeadersLoop_spec :
    ∀ (lines : List (List Char)) (f t s ti : List Char),
      parseHeadersLoop lines (f, t, s, ti) =
        ((if f = [] then firstNonEmptyHeaderVal "From:" lines else f),
         (if t = [] then firstNonEmptyHeaderVal "To:" lines else t),
         (if s = [] then firstNonEmptyHeaderVal "Subject:" lines else s),
         (if ti = [] then firstNonEmptyHeaderVal "Time:" lines else ti)) := by
  intro lines
  induction lines with
  | nil =>
    intro f t s ti
    simp only [parseHeadersLoop, firstNonEmptyHeaderVal]
    have hid : ∀ x : List Char, (if x = [] then ([] : List Char) else x) = x := by
      intro x
      split <;> simp_all
    rw [hid, hid, hid, hid]
  | cons line rest ih =>
    intro f t s ti
    by_cases hF : startsWithL "From:".data (pyStrip line) = true
    · have hT := swFT _ hF
      have hS := swFS _ hF
      have hTi := swFTi _ hF
      by_cases hf : f = []
      · rw [show parseHeadersLoop (line :: rest) (f, t, s, ti) =
            parseHeadersLoop rest (headerVal "From:" (pyStrip line), t, s, ti) by
          simp [parseHeadersLoop, hF, hf]]
        rw [ih]
        by_cases hv : headerVal "From:" (pyStrip line) = [] <;>
          simp [firstNonEmptyHeaderVal, hF, hT, hS, hTi, hf, hv]
      · rw [show parseHeadersLoop (line :: rest) (f, t, s, ti) =
            parseHeadersLoop rest (f, t, s, ti) by
          simp [parseHeadersLoop, hF, hT, hS, hTi, hf]]
        rw [ih]
        simp [firstNonEmptyHeaderVal, hF, hT, hS, hTi, hf]
    · by_cases hT : startsWithL "To:".data (pyStrip line) = true
      · have hS := swTS _ hT
        have hTi := swTTi _ hT
        by_cases ht : t = []
        · rw [show parseHeadersLoop (line :: rest) (f, t, s, ti) =
              parseHeadersLoop rest (f, headerVal "To:" (pyStrip line), s, ti) by
            simp [parseHeadersLoop, hF, hT, ht]]
          rw [ih]
          by_cases hv : headerVal "To:" (pyStrip line) = [] <;>
            simp [firstNonEmptyHeaderVal, hF, hT, hS, hTi, ht, hv]
        · rw [show parseHeadersLoop (line :: rest) (f, t, s, ti) =
              parseHeadersLoop rest (f, t, s, ti) by
            simp [parseHeadersLoop, hF, hT, hS, hTi, ht]]
          rw [ih]
          simp [firstNonEmptyHeaderVal, hF, hT, hS, hTi, ht]
      · by_cases hS : startsWithL "Subject:".data (pyStrip line) = true
        · have hTi := swSTi _ hS
          by_cases hs : s = []
          · rw [show parseHeadersLoop (line :: rest) (f, t, s, ti) =
                parseHeadersLoop rest (f, t, headerVal "Subject:" (pyStrip line), ti) by
              simp [parseHeadersLoop, hF, hT, hS, hs]]
            rw [ih]
            by_cases hv : headerVal "Subject:" (pyStrip line) = [] <;>
              simp [firstNonEmptyHeaderVal, hF, hT, hS, hTi, hs, hv]
          · rw [show parseHeadersLoop (line :: rest) (f, t, s, ti) =
                parseHeadersLoop rest (f, t, s, ti) by
              simp [parseHeadersLoop, hF, hT, hS, hTi, hs]]
            rw [ih]
            simp [firstNonEmptyHeaderVal, hF, hT, hS, hTi, hs]
        · by_cases hTi : startsWithL "Time:".data (pyStrip line) = true
          · by_cases hti : ti = []
            · rw [show parseHeadersLoop (line :: rest) (f, t, s, ti) =
                  parseHeadersLoop rest (f, t, s, headerVal "Time:" (pyStrip line)) by
                simp [parseHeadersLoop, hF, hT, hS, hTi, hti]]
              rw [ih]
              by_cases hv : headerVal "Time:" (pyStrip line) = [] <;>
                simp [firstNonEmptyHeaderVal, hF, hT, hS, hTi, hti, hv]
            · rw [show parseHeadersLoop (line :: rest) (f, t, s, ti) =
                  parseHeadersLoop rest (f, t, s, ti) by
                simp [parseHeadersLoop, hF, hT, hS, hTi, hti]]
              rw [ih]
              simp [firstNonEmptyHeaderVal, hF, hT, hS, hTi, hti]
          · rw [show parseHeadersLoop (line :: rest) (f, t, s, ti) =
                parseHeadersLoop rest (f, t, s, ti) by
              simp [parseHeadersLoop, hF, hT, hS, hTi]]
            rw [ih]
            simp [firstNonEmptyHeaderVal, hF, hT, hS, hTi]

end EmailSel

namespace EmailSel

/-! Concrete data used by the closed witness instances. -/

/-- A shuffle model that returns the list unchanged (one admissible
behaviour of a seeded Fisher-Yates shuffle). -/
def idShuffle : Nat → List Email → List Email := fun _ l => l

theorem idShuffle_perm : ∀ (k : Nat) (l : List Email),
    List.Perm (idShuffle k l) l := fun _ _ => List.Perm.refl _

def eWork : Email :=
  { thread_id := "w1", fromF := "alice@work.example"
    full_content := "Message 1\nhi", personal_or_work := "work" }

def ePersonal : Email :=
  { thread_id := "p1", fromF := "bob@home.example"
    full_content := "Message 1\nyo", personal_or_work := "personal" }

set_option maxRecDepth 10000 in
/-- C1: the specification demands clean(clean x) = clean x for every
input without the engine's marker tokens.  The input "&amp;amp;" has no
marker token, yet one pass of the pipeline yields "&amp;" and a second
pass yields "&": the sequential entity replacements of clean_boilerplate
decode a doubly encoded entity one layer per run, so the pipeline is not
idempotent there. -/
theorem C1_clean_not_idempotent_eval :
    clean_email_content "&amp;amp;" = some "&amp;" ∧
      clean_email_content "&amp;" = some "&" := by
  constructor
  · decide
  · decide

/-- C2: in a full selection run (work pool first, then the personal pool
sharing the same sender-count map, both starting from the all-zero map),
no sender key computed by extract_sender is attributed more than
MAX_PER_SENDER = 10 records across the combined selected set, whatever
the shuffle does. -/
theorem C2_global_sender_cap (shuffle : Nat → List Email → List Email)
    (work personal : List Email) (s : String) :
    MAX_PER_SENDER = 10 ∧
      countSender s ((mainSelect shuffle work personal).1 ++
        (mainSelect shuffle work personal).2) ≤ MAX_PER_SENDER :=
  ⟨rfl, mainSelect_cap shuffle work personal s⟩

/-- C3: duplicate-content removal splits on the literal separator line;
with at least two segments, if any segment has a "Message N" header the
result is exactly the join of all header-carrying segments (header-less
segments dropped), and if no segment has one only the first segment is
kept; in particular the body with segments A, Message 1, Message 2
cleans to the two message segments joined, with A absent. -/
theorem C3_segmentation :
    (∀ t : List Char, 2 ≤ (splitSep t).length →
      ((∃ p ∈ splitSep t, hasMsgHeader p = true) →
        remove_duplicate_content t =
          some (joinSep "\n\n".data ((splitSep t).filter hasMsgHeader))) ∧
      ((∀ p ∈ splitSep t, hasMsgHeader p = false) →
        remove_duplicate_content t = some (pyStrip (splitSep t).headI))) ∧
    remove_duplicate_content "A\n---\nMessage 1\nfoo\n---\nMessage 2\nbar".data =
      some "Message 1\nfoo\n\nMessage 2\nbar".data := by
  constructor
  · intro t h2
    constructor
    · rintro ⟨p, hp, hmsg⟩
      exact rdc_multi_msg t h2
        (List.ne_nil_of_mem (List.mem_filter.mpr ⟨hp, hmsg⟩))
    · intro hall
      refine rdc_multi_nomsg t h2 (List.filter_eq_nil_iff.mpr ?_)
      intro a ha
      rw [hall a ha]
      simp
  · decide

/-- Closed instance for C3: a two-segment body with one message header
keeps exactly the header segment. -/
theorem C3_segmentation_witness :
    remove_duplicate_content "X\n---\nMessage 1\ny".data =
      some (joinSep "\n\n".data
        ((splitSep "X\n---\nMessage 1\ny".data).filter hasMsgHeader)) :=
  (C3_segmentation.1 "X\n---\nMessage 1\ny".data (by decide)).1 (by decide)

/-- C4: the selection core is a pure function of the shuffle behaviour
fixed by the seed and of the two candidate pools; two runs on equal
inputs return equal selections, membership and order included. -/
theorem C4_determinism (shuffle shuffle2 : Nat → List Email → List Email)
    (work work2 personal personal2 : List Email)
    (hs : shuffle = shuffle2) (hw : work = work2) (hp : personal = personal2) :
    mainSelect shuffle work personal = mainSelect shuffle2 work2 personal2 := by
  subst hs
  subst hw
  subst hp
  rfl

/-- Closed instance for C4 at concrete pools. -/
theorem C4_determinism_witness :
    mainSelect idShuffle [eWork] [ePersonal] =
      mainSelect idShuffle [eWork] [ePersonal] :=
  C4_determinism idShuffle idShuffle [eWork] [eWork] [ePersonal] [ePersonal]
    rfl rfl rfl

/-- C5: the cleaning pipeline is total: it returns a result on every
input (the only partial access of the source, parts[0] in
remove_duplicate_content, is guarded by the split always producing at
least one segment); and when the separator shape is absent the
segmentation stage returns its input unchanged. -/
theorem C5_totality :
    (∀ s : String, ∃ r, clean_email_content s = some r) ∧
    (∀ t : List Char, (splitSep t).length ≤ 1 →
      remove_duplicate_content t = some t) := by
  constructor
  · intro s
    obtain ⟨r, hr⟩ := rdc_isSome (clean_markdown_artifacts
      (remove_attachment_metadata (clean_html_tags (clean_tracking_urls s.data))))
    refine ⟨String.mk (clean_whitespace (simplify_quoted_replies
      (clean_signatures (clean_boilerplate r)))), ?_⟩
    simp [clean_email_content, hr]
  · intro t h
    exact rdc_single t h

/-- Closed instance for C5 at the empty string and a separator-free
body. -/
theorem C5_totality_witness :
    (∃ r, clean_email_content "" = some r) ∧
      remove_duplicate_content "plain body".data = some "plain body".data :=
  ⟨C5_totality.1 "", C5_totality.2 "plain body".data (by decide)⟩

end EmailSel

namespace EmailSel

/-- C6: over pools whose records carry pairwise distinct thread ids, the
combined selected set of a run contains no repeated thread id — the
per-bucket passes draw from disjoint buckets, the 1-msg backfill
excludes already selected ids, and the two categories draw from
disjoint pools. -/
theorem C6_no_duplicate_ids (shuffle : Nat → List Email → List Email)
    (hp : ∀ k l, List.Perm (shuffle k l) l)
    (work personal : List Email)
    (hnd : ((work ++ personal).map Email.thread_id).Nodup) :
    (((mainSelect shuffle work personal).1 ++
      (mainSelect shuffle work personal).2).map Email.thread_id).Nodup :=
  mainSelect_nodup shuffle hp work personal hnd

/-- Closed instance for C6 at concrete distinct-id pools. -/
theorem C6_no_duplicate_ids_witness :
    (((mainSelect idShuffle [eWork] [ePersonal]).1 ++
      (mainSelect idShuffle [eWork] [ePersonal]).2).map Email.thread_id).Nodup :=
  C6_no_duplicate_ids idShuffle idShuffle_perm [eWork] [ePersonal] (by decide)

/-- C7: when the per-bucket passes leave no shortfall the category
selection is exactly their output, and when they leave a positive
shortfall the additional records are drawn only from the "1-msg" bucket
excluding already selected thread ids, by the same shuffle-and-cap
sampling; the backfill may fall short of the shortfall (the selection is
then simply smaller), and no error can arise. -/
theorem C7_backfill (shuffle : Nat → List Email → List Email)
    (hp : ∀ k l, List.Perm (shuffle k l) l)
    (emails : List Email) (targets : List (String × Nat))
    (cnt : String → Nat) (k tt : Nat) :
    ((bucketPasses shuffle targets emails cnt k).2.2.2 = 0 →
      (select_emails_with_global_cap shuffle emails targets cnt k tt).1 =
        (bucketPasses shuffle targets emails cnt k).1) ∧
    ((bucketPasses shuffle targets emails cnt k).2.2.2 > 0 →
      ∃ add, (select_emails_with_global_cap shuffle emails targets cnt k tt).1 =
          (bucketPasses shuffle targets emails cnt k).1 ++ add ∧
        add.length ≤ (bucketPasses shuffle targets emails cnt k).2.2.2 ∧
        ∀ e ∈ add, e ∈ emails ∧ get_message_bucket e = "1-msg" ∧
          e.thread_id ∉ (bucketPasses shuffle targets emails cnt k).1.map
            Email.thread_id) :=
  select_shape shuffle hp emails targets cnt k tt

/-- Closed instance for C7 at a one-record pool. -/
theorem C7_backfill_witness :
    ((bucketPasses idShuffle WORK_TARGETS [eWork] (fun _ => 0) 0).2.2.2 = 0 →
      (select_emails_with_global_cap idShuffle [eWork] WORK_TARGETS
        (fun _ => 0) 0 200).1 =
        (bucketPasses idShuffle WORK_TARGETS [eWork] (fun _ => 0) 0).1) ∧
    ((bucketPasses idShuffle WORK_TARGETS [eWork] (fun _ => 0) 0).2.2.2 > 0 →
      ∃ add, (select_emails_with_global_cap idShuffle [eWork] WORK_TARGETS
          (fun _ => 0) 0 200).1 =
          (bucketPasses idShuffle WORK_TARGETS [eWork] (fun _ => 0) 0).1 ++ add ∧
        add.length ≤
          (bucketPasses idShuffle WORK_TARGETS [eWork] (fun _ => 0) 0).2.2.2 ∧
        ∀ e ∈ add, e ∈ [eWork] ∧ get_message_bucket e = "1-msg" ∧
          e.thread_id ∉ (bucketPasses idShuffle WORK_TARGETS [eWork]
            (fun _ => 0) 0).1.map Email.thread_id) :=
  C7_backfill idShuffle idShuffle_perm [eWork] WORK_TARGETS (fun _ => 0) 0 200

end EmailSel

namespace EmailSel

/-- C8 amended claim: a row whose thread id is absent from the content
map gets an empty body (not an error) and its headers are parsed from
the preview; the From/To/Subject/Time fields are read from the first 20
lines of the available content, where for each field the first matching
line whose extracted value is non-empty wins — a matching line whose
value strips to nothing leaves the field open, so a later matching line
can still fill it. -/
theorem C8_merge (m : List (String × String)) (row : MetaRow) :
    (lookupContent m row.thread_id = none →
      (mergeRecord m row).full_content = "" ∧
      contentForParsing m row = row.email_preview) ∧
    (mergeRecord m row).fromF = String.mk (firstNonEmptyHeaderVal "From:"
      (headerWindow (contentForParsing m row))) ∧
    (mergeRecord m row).toF = String.mk (firstNonEmptyHeaderVal "To:"
      (headerWindow (contentForParsing m row))) ∧
    (mergeRecord m row).subjectF = String.mk (firstNonEmptyHeaderVal "Subject:"
      (headerWindow (contentForParsing m row))) ∧
    (mergeRecord m row).timeF = String.mk (firstNonEmptyHeaderVal "Time:"
      (headerWindow (contentForParsing m row))) := by
  have hspec := parseHeadersLoop_spec (headerWindow (contentForParsing m row))
    [] [] [] []
  refine ⟨?_, ?_, ?_, ?_, ?_⟩
  · intro h
    constructor
    · simp [mergeRecord, h]
    · simp [contentForParsing, h]
  · simp [mergeRecord, parseHeaders, hspec]
  · simp [mergeRecord, parseHeaders, hspec]
  · simp [mergeRecord, parseHeaders, hspec]
  · simp [mergeRecord, parseHeaders, hspec]

def c8Row : MetaRow := { thread_id := "t1", email_preview := "" }

def c8Map : List (String × String) := [("t1", "From:\nFrom: bob\nx")]

/-- C8 counterexample to the claim as stated: with a first "From:" line
whose value is empty and a later "From: bob" line, the merge records
"bob" — the first matching line does not win and the later duplicate
header line is not ignored. -/
theorem C8_counterexample :
    ¬ ((mergeRecord c8Map c8Row).fromF =
      String.mk (specFirstHeaderVal "From:"
        (headerWindow (contentForParsing c8Map c8Row)))) := by
  decide

def c8RowW : MetaRow := { thread_id := "w9", email_preview := "From: carol\nz" }

/-- Closed instance for C8: a row missing from the content map gets an
empty body, parses from the preview, and the first non-empty From line
wins. -/
theorem C8_merge_witness :
    ((mergeRecord [] c8RowW).full_content = "" ∧
      contentForParsing [] c8RowW = c8RowW.email_preview) ∧
    (mergeRecord [] c8RowW).fromF = String.mk (firstNonEmptyHeaderVal "From:"
      (headerWindow (contentForParsing [] c8RowW))) :=
  ⟨(C8_merge [] c8RowW).1 rfl, (C8_merge [] c8RowW).2.1⟩

/-- C9: one sampling call returns at most target-many records, all drawn
from its candidate list, and a category selection never exceeds the sum
of its bucket targets. -/
theorem C9_selection_bounds (shuffle : Nat → List Email → List Email)
    (hp : ∀ k l, List.Perm (shuffle k l) l)
    (k : Nat) (emails : List Email) (target cap : Nat) (cnt : String → Nat)
    (targets : List (String × Nat)) (cnt2 : String → Nat) (k2 tt : Nat) :
    (sample_with_global_sender_cap shuffle k emails target cap cnt).1.length ≤
      target ∧
    (∀ e ∈ (sample_with_global_sender_cap shuffle k emails target cap cnt).1,
      e ∈ emails) ∧
    (select_emails_with_global_cap shuffle emails targets cnt2 k2 tt).1.length ≤
      sumTargets targets :=
  ⟨sample_len shuffle k emails target cap cnt,
   fun e he => sample_mem shuffle hp k emails target cap cnt e he,
   select_len shuffle emails targets cnt2 k2 tt⟩

/-- Closed instance for C9 at a one-record pool. -/
theorem C9_selection_bounds_witness :
    (sample_with_global_sender_cap idShuffle 0 [eWork] 3 MAX_PER_SENDER
      (fun _ => 0)).1.length ≤ 3 ∧
    (∀ e ∈ (sample_with_global_sender_cap idShuffle 0 [eWork] 3 MAX_PER_SENDER
      (fun _ => 0)).1, e ∈ [eWork]) ∧
    (select_emails_with_global_cap idShuffle [eWork] WORK_TARGETS
      (fun _ => 0) 0 200).1.length ≤ sumTargets WORK_TARGETS :=
  C9_selection_bounds idShuffle idShuffle_perm 0 [eWork] 3 MAX_PER_SENDER
    (fun _ => 0) WORK_TARGETS (fun _ => 0) 0 200

/-- C10: a record whose from field holds no email-address-shaped token
(and is non-empty) gets the first 50 characters of the lowercased field
as its sender key; an empty from field gets the key "unknown", and that
shared key is subject to the same global 10-per-sender cap as any
other. -/
theorem C10_sender_fallback (e : Email)
    (shuffle : Nat → List Email → List Email) (work personal : List Email) :
    (hasEmailAdj e.fromF.data = false → e.fromF ≠ "" →
      extract_sender e = String.mk ((pyLower e.fromF.data).take 50)) ∧
    (e.fromF = "" → extract_sender e = "unknown") ∧
    countSender "unknown" ((mainSelect shuffle work personal).1 ++
      (mainSelect shuffle work personal).2) ≤ MAX_PER_SENDER :=
  ⟨fun h hne => extract_sender_no_tok e h hne,
   fun h => extract_sender_empty e h,
   mainSelect_cap shuffle work personal "unknown"⟩

def eNoAddr : Email :=
  { thread_id := "n1", fromF := "Newsletter Desk", full_content := ""
    personal_or_work := "work" }

def eEmptyFrom : Email :=
  { thread_id := "n2", fromF := "", full_content := ""
    personal_or_work := "work" }

/-- Closed instance for C10: a token-free from field falls back to its
lowercased prefix, and an empty one to "unknown". -/
theorem C10_sender_fallback_witness :
    extract_sender eNoAddr =
      String.mk ((pyLower eNoAddr.fromF.data).take 50) ∧
    extract_sender eEmptyFrom = "unknown" :=
  ⟨(C10_sender_fallback eNoAddr idShuffle [] []).1 (by decide) (by decide),
   (C10_sender_fallback eEmptyFrom idShuffle [] []).2.1 rfl⟩

end EmailSel

namespace EmailSel

/-- Closed instance for C2 at concrete pools. -/
theorem C2_global_sender_cap_witness :
    MAX_PER_SENDER = 10 ∧
      countSender "unknown" ((mainSelect idShuffle [eWork] [ePersonal]).1 ++
        (mainSelect idShuffle [eWork] [ePersonal]).2) ≤ MAX_PER_SENDER :=
  C2_global_sender_cap idShuffle [eWork] [ePersonal] "unknown"

end EmailSel
